import Mathlib

/-!
Shallow embedding of `src/dsproof/storage.cpp` (class `DoubleSpendProofStorage`),
the in-memory store for double-spend proofs: the record index, the orphan
counter, the watermark eviction sweep (`checkOrphanLimit`), and the
recently-rejected filter.

Modelling conventions:
* A `DoubleSpendProof` is opaque: it exposes `GetId()` (modelled as `id : Nat`),
  the referenced outpoint (`prevOut`), and `isEmpty()` (`empty : Bool`).
* `NodeId` and timestamps are `Int` (negative = unset sentinel, as in the code).
* The boost multi_index container `m_proofs` is modelled as a `List Entry`
  maintained in the order of its timestamp index (`tag_TimeStamp`, ascending
  by `timeStamp`; the ordered_non_unique index keeps equal keys in insertion
  order, i.e. new elements go to the upper bound of their equal range), since
  the eviction sweep iterates that index.  Lookups by identity are
  order-insensitive.  The class declaration (`dsproof/storage.h`) with the
  container layout and the field defaults is not part of the sources; those
  parts are modelled from the spec where noted.
* C++ control flow that throws is modelled with `Except DSErr`: a returned
  `.error` means the C++ function threw (or aborted) at that point, leaving
  the store in the state it had before the public call mutated anything
  observable at that point.
-/

/-- Error outcomes of the C++ code.  `invalidArgument` models a thrown
`std::invalid_argument` and `runtimeError` a thrown `std::runtime_error` —
both are ordinary C++ exceptions that propagate to the caller and can be
caught.  `assertAbort` models a failed `assert(...)`, which terminates the
process and cannot be caught. -/
inductive DSErr where
  | invalidArgument
  | runtimeError
  | assertAbort
deriving DecidableEq

/-- Whether the error outcome is a catchable C++ exception (`throw`) as
opposed to a process abort (`assert`). -/
def DSErr.catchable : DSErr → Bool
  | .invalidArgument => true
  | .runtimeError => true
  | .assertAbort => false

/-- Opaque double-spend proof payload: exposes its identity (`GetId()`),
its referenced outpoint, and `isEmpty()`. -/
structure DoubleSpendProof where
  id : Nat
  prevOut : Nat × Nat
  empty : Bool
deriving DecidableEq

/-- Default-constructed `DoubleSpendProof` (as built by `lookup` before a
find): an empty payload. -/
def emptyDSP : DoubleSpendProof := { id := 0, prevOut := (0, 0), empty := true }

namespace DoubleSpendProofStorage

/-- One record of the store.  Modelled from the spec: the `Entry` struct
itself is declared in `dsproof/storage.h`, which is not among the sources;
per the spec the defaults are non-orphan, unset (negative) peer handle and
unset (−1) timestamp. -/
structure Entry where
  proof : DoubleSpendProof
  orphan : Bool
  nodeId : Int
  timeStamp : Int
deriving DecidableEq

/-- The store state.  `m_proofs` is the record index viewed through its
timestamp-ordered index (see the module comment); `m_recentRejects` is the
recently-rejected filter.  Modelled from the spec: `CRollingBloomFilter`
(constructed as `m_recentRejects(120000, 0.000001)`) is not among the
sources; the spec describes it as a resettable probabilistic membership set,
idealized here as an exact membership set (the spec allows rare false
positives, which this model simply never produces).  `k0`/`k1` are the
`SaltedHasher` keys drawn at construction. -/
structure State where
  m_proofs : List Entry
  m_recentRejects : List Nat
  m_secondsToKeepOrphans : Int
  m_maxOrphans : Nat
  m_numOrphans : Nat
  k0 : Nat
  k1 : Nat
deriving DecidableEq

/-- Identities of the stored records, in index order. -/
def entryIds (l : List Entry) : List Nat := l.map fun e => e.proof.id

/-- Number of stored records whose orphan flag is set. -/
def countOrphans (l : List Entry) : Nat := l.countP fun e => e.orphan

/-- Lookup by identity in the record index (`m_proofs.find(hash)`). -/
def findEntry (l : List Entry) (hash : Nat) : Option Entry :=
  l.find? fun e => e.proof.id == hash

/-- Erase the record with the given identity (`m_proofs.erase(it)` after a
find by identity). -/
def eraseEntry (hash : Nat) : List Entry → List Entry
  | [] => []
  | e :: es => if e.proof.id == hash then es else e :: eraseEntry hash es

/-- In-place modification of the first record satisfying `p`
(`m_proofs.modify(it, f)` for a modification that does not change the
timestamp key, so the element keeps its position in the timestamp index). -/
def modifyFirst (p : Entry → Bool) (f : Entry → Entry) : List Entry → List Entry
  | [] => []
  | e :: es => if p e then f e :: es else e :: modifyFirst p f es

/-- Insertion into the timestamp-ordered index: the element is placed at the
upper bound of its key's equal range (ordered_non_unique semantics), i.e.
after every element whose `timeStamp` is ≤ its own. -/
def insertTS (e : Entry) : List Entry → List Entry
  | [] => [e]
  | x :: xs => if x.timeStamp ≤ e.timeStamp then x :: insertTS e xs else e :: x :: xs

/-- The store as freshly constructed: empty index, empty filter, zero orphan
counter, hasher keys `k0`/`k1` drawn from the random source.  Modelled from
the spec: the constructor initialises only the filter; the defaults of
`m_maxOrphans` and `m_secondsToKeepOrphans` live in the missing header, so
they are taken as parameters here. -/
def mkStorage (k0 k1 : Nat) (maxOrphans : Nat) (secs : Int) : State :=
  { m_proofs := [], m_recentRejects := [], m_secondsToKeepOrphans := secs,
    m_maxOrphans := maxOrphans, m_numOrphans := 0, k0 := k0, k1 := k1 }

/-- Accessor `numOrphans()`. -/
def numOrphans (s : State) : Nat := s.m_numOrphans

/-- Accessor `maxOrphans()`. -/
def maxOrphans (s : State) : Nat := s.m_maxOrphans

/-- Accessor `secondsToKeepOrphans()`. -/
def secondsToKeepOrphans (s : State) : Int := s.m_secondsToKeepOrphans

/-- `size()` — number of records in the index. -/
def size (s : State) : Nat := s.m_proofs.length

/-- `setMaxOrphans(max)`. -/
def setMaxOrphans (s : State) (max : Nat) : State := { s with m_maxOrphans := max }

/-- `setSecondsToKeepOrphans(secs)` — silently ignores negative values. -/
def setSecondsToKeepOrphans (s : State) (secs : Int) : State :=
  if 0 ≤ secs then { s with m_secondsToKeepOrphans := secs } else s

/-- `decrementOrphans(n)`: decrements the counter by `n`; if the counter
would go negative it throws `std::runtime_error` ("Orphan counter not as
expected"). -/
def decrementOrphans (m_numOrphans n : Nat) : Except DSErr Nat :=
  if n ≠ 0 then
    if m_numOrphans < n then .error .runtimeError
    else .ok (m_numOrphans - n)
  else .ok m_numOrphans

/-- The `ModFastFail` functor invoked when an index `modify` fails to commit:
it logs the failure (`LogPrintf`) and then aborts the process via
`assert(!"Internal Error: ...")`.  In this embedding a modify on the list
model always commits, so the functor never fires on any reachable path; its
effect when invoked is the uncatchable abort it would produce. -/
def ModFastFail : DSErr := .assertAbort

/-- Eligibility test of the eviction sweep body:
`it->orphan && dontDeleteHash != it->proof.GetId()`. -/
def sweepEligible (dontDeleteHash : Nat) (e : Entry) : Bool :=
  e.orphan && !(dontDeleteHash == e.proof.id)

/-- The sweep loop of `checkOrphanLimit`: walk the timestamp-ordered index
from the oldest entry forward while the orphan counter exceeds
`lowWaterMark`; erase every orphan entry whose identity differs from
`dontDeleteHash`, decrementing the counter per erasure (the loop guard
`m_numOrphans > lowWaterMark` makes that internal `decrementOrphans(1)`
incapable of underflow, so it is a plain subtraction here).  Returns the
surviving entries (in order) and the final counter value. -/
def sweepAux (dontDeleteHash lowWaterMark : Nat) : List Entry → Nat → List Entry × Nat
  | [], num => ([], num)
  | e :: rest, num =>
    if lowWaterMark < num then
      if sweepEligible dontDeleteHash e then
        sweepAux dontDeleteHash lowWaterMark rest (num - 1)
      else
        let r := sweepAux dontDeleteHash lowWaterMark rest num
        (e :: r.1, r.2)
    else (e :: rest, num)

/-- `checkOrphanLimit(dontDeleteHash)`: computes
`highWaterMark = size_t(m_maxOrphans * 1.25)` — which equals
`5 * m_maxOrphans / 4` in exact integer arithmetic, i.e. ⌊maxOrphans·1.25⌋ —
and `lowWaterMark = m_maxOrphans`; does nothing unless the orphan counter
exceeds the high watermark, and otherwise runs the oldest-first sweep. -/
def checkOrphanLimit (s : State) (dontDeleteHash : Nat) : State :=
  let highWaterMark := 5 * s.m_maxOrphans / 4
  let lowWaterMark := s.m_maxOrphans
  if highWaterMark < s.m_numOrphans then
    let r := sweepAux dontDeleteHash lowWaterMark s.m_proofs s.m_numOrphans
    { s with m_proofs := r.1, m_numOrphans := r.2 }
  else s

/-- `incrementOrphans(n, dontDeleteHash)`: if `n` is nonzero, bump the
counter and run `checkOrphanLimit` (the only call site of the sweep). -/
def incrementOrphans (s : State) (n : Nat) (dontDeleteHash : Nat) : State :=
  if n ≠ 0 then
    checkOrphanLimit { s with m_numOrphans := s.m_numOrphans + n } dontDeleteHash
  else s

/-- A fresh record as created by `add` for a previously-unknown identity:
`Entry e; e.proof = proof;` with the header defaults (non-orphan, unset
peer, unset timestamp; see `Entry`). -/
def newEntry (proof : DoubleSpendProof) : Entry :=
  { proof := proof, orphan := false, nodeId := -1, timeStamp := -1 }

/-- `add(proof)`: throws `std::invalid_argument` on an empty payload before
touching any state; demotes an existing orphan record (decrement counter,
clear flag) returning `false`; returns `false` unchanged for an existing
non-orphan; otherwise inserts a fresh non-orphan record and returns
`true`. -/
def add (s : State) (proof : DoubleSpendProof) : Except DSErr (State × Bool) :=
  if proof.empty then .error .invalidArgument
  else
    match findEntry s.m_proofs proof.id with
    | some e =>
      if e.orphan then do
        let n ← decrementOrphans s.m_numOrphans 1
        .ok ({ s with
               m_numOrphans := n
               m_proofs := modifyFirst (fun x => x.proof.id == proof.id)
                 (fun x => { x with orphan := false }) s.m_proofs }, false)
      else .ok (s, false)
    | none => .ok ({ s with m_proofs := insertTS (newEntry proof) s.m_proofs }, true)

/-- `addOrphan(proof, nodeId)`: calls `add` (ignoring its result), finds the
record (the `assert` that it exists is modelled as `assertAbort` on the
impossible branch), then performs the modify: adopt the peer handle if the
stored one is unset and the supplied one set; set the timestamp to the
current time (`GetTime()`, passed as `now`) if unset; call
`incrementOrphans(!e.orphan, hash)` — which may run the eviction sweep,
protecting `hash` — and finally set the orphan flag.  The functor mutates
the fields in place while the element still sits at its old timestamp-index
position (re-indexing happens only after the functor returns), so the model
updates the fields in place first, runs the sweep, and only then re-inserts
the record at its new timestamp position. -/
def addOrphan (s : State) (proof : DoubleSpendProof) (nodeId : Int) (now : Int) :
    Except DSErr State := do
  let r ← add s proof
  let s1 := r.1
  match findEntry s1.m_proofs proof.id with
  | none => .error .assertAbort
  | some e =>
    let e1 : Entry :=
      { proof := e.proof, orphan := e.orphan,
        nodeId := if e.nodeId < 0 ∧ -1 < nodeId then nodeId else e.nodeId,
        timeStamp := if e.timeStamp < 0 then now else e.timeStamp }
    let s2 := { s1 with
      m_proofs := modifyFirst (fun x => x.proof.id == proof.id) (fun _ => e1) s1.m_proofs }
    let s3 := incrementOrphans s2 (if e.orphan then 0 else 1) proof.id
    let e2 : Entry := { e1 with orphan := true }
    .ok { s3 with m_proofs := insertTS e2 (eraseEntry proof.id s3.m_proofs) }

/-- `claimOrphan(hash)`: if the record exists and is orphan, decrement the
counter and clear the flag; the record itself is kept. -/
def claimOrphan (s : State) (hash : Nat) : Except DSErr State :=
  match findEntry s.m_proofs hash with
  | some e =>
    if e.orphan then do
      let n ← decrementOrphans s.m_numOrphans 1
      .ok { s with
            m_numOrphans := n
            m_proofs := modifyFirst (fun x => x.proof.id == hash)
              (fun x => { x with orphan := false }) s.m_proofs }
    else .ok s
  | none => .ok s

/-- `remove(hash)`: erase the record if present, decrementing the counter
first when it was orphan; returns whether anything was removed. -/
def remove (s : State) (hash : Nat) : Except DSErr (State × Bool) :=
  match findEntry s.m_proofs hash with
  | some e => do
    let n ← decrementOrphans s.m_numOrphans (if e.orphan then 1 else 0)
    .ok ({ s with m_numOrphans := n, m_proofs := eraseEntry hash s.m_proofs }, true)
  | none => .ok (s, false)

/-- `lookup(hash)`: the stored proof, or a default-constructed (empty) proof
when the identity is absent. -/
def lookup (s : State) (hash : Nat) : DoubleSpendProof :=
  match findEntry s.m_proofs hash with
  | some e => e.proof
  | none => emptyDSP

/-- Membership test by identity (the C++ method is named `exists`, a Lean
keyword). -/
def existsEntry (s : State) (hash : Nat) : Bool :=
  (findEntry s.m_proofs hash).isSome

/-- `findOrphans(prevOut)`: identities and peers of the orphan records
referencing the outpoint. -/
def findOrphans (s : State) (prevOut : Nat × Nat) : List (Nat × Int) :=
  (s.m_proofs.filter fun e => e.proof.prevOut == prevOut && e.orphan).map
    fun e => (e.proof.id, e.nodeId)

/-- `isRecentlyRejectedProof(hash)` — query of the rejected filter. -/
def isRecentlyRejectedProof (s : State) (hash : Nat) : Bool :=
  s.m_recentRejects.contains hash

/-- `markProofRejected(hash)` — insertion into the rejected filter. -/
def markProofRejected (s : State) (hash : Nat) : State :=
  { s with m_recentRejects := hash :: s.m_recentRejects }

/-- `newBlockFound()` — resets the rejected filter. -/
def newBlockFound (s : State) : State :=
  { s with m_recentRejects := [] }

/-- `clear()`: empties the record index, resets the rejected filter and
zeroes the orphan counter.  The salted-hasher keys are untouched. -/
def clear (s : State) : State :=
  { s with m_proofs := [], m_recentRejects := [], m_numOrphans := 0 }

/-- The internal consistency invariant of the store: record identities are
pairwise distinct (one record per identity), the orphan counter equals the
exact number of orphan-flagged records, and every stored payload is
non-empty. -/
def Inv (s : State) : Prop :=
  (entryIds s.m_proofs).Nodup ∧
  s.m_numOrphans = countOrphans s.m_proofs ∧
  ∀ e ∈ s.m_proofs, e.proof.empty = false

instance (s : State) : Decidable (Inv s) := by
  unfold Inv; infer_instance

/-- A run of `addOrphan` calls, used to express properties of operation
sequences (each element supplies the proof, the peer handle and the
`GetTime()` value of one call). -/
def addOrphanSeq (s : State) : List (DoubleSpendProof × Int × Int) → Except DSErr State
  | [] => .ok s
  | x :: rest => do
    let s' ← addOrphan s x.1 x.2.1 x.2.2
    addOrphanSeq s' rest

/-- A concrete non-empty proof payload used to exercise the operations on
explicit inputs. -/
def wProof (i : Nat) : DoubleSpendProof := { id := i, prevOut := (i, 0), empty := false }

/-- A small concrete store used to exercise the operations: one orphan
record (id 1, counted once) and one non-orphan record with unset peer and
timestamp (id 2). -/
def wState : State :=
  { m_proofs :=
      [ { proof := wProof 1, orphan := true, nodeId := 2, timeStamp := 5 },
        { proof := wProof 2, orphan := false, nodeId := -1, timeStamp := -1 } ]
    m_recentRejects := []
    m_secondsToKeepOrphans := 0
    m_maxOrphans := 10
    m_numOrphans := 1
    k0 := 0
    k1 := 0 }

/-- A concrete store over the high watermark: maxOrphans = 1 (so the high
watermark is 1) and three orphans in ascending timestamp order, counter 3. -/
def wSweepState : State :=
  { m_proofs :=
      [ { proof := wProof 1, orphan := true, nodeId := 1, timeStamp := 1 },
        { proof := wProof 2, orphan := true, nodeId := 1, timeStamp := 2 },
        { proof := wProof 3, orphan := true, nodeId := 1, timeStamp := 3 } ]
    m_recentRejects := []
    m_secondsToKeepOrphans := 0
    m_maxOrphans := 1
    m_numOrphans := 3
    k0 := 0
    k1 := 0 }

/-- Fill a store with maxOrphans = 4 with five orphans (ids 1–5, ascending
timestamps): the counter reaches 5, the high watermark, without sweeping. -/
def c6Before : Except DSErr State :=
  addOrphanSeq (mkStorage 0 0 4 0)
    [(wProof 1, 1, 1), (wProof 2, 1, 2), (wProof 3, 1, 3),
     (wProof 4, 1, 4), (wProof 5, 1, 5)]

/-- The round trip of the C6 scenario on that store: record the counter
before the addOrphan call and after the final claimOrphan. -/
def c6Run : Except DSErr (Nat × Nat) := do
  let s ← c6Before
  let r ← add s (wProof 6)
  let s2 ← addOrphan r.1 (wProof 6) 2 6
  let s3 ← claimOrphan s2 6
  .ok (numOrphans s, numOrphans s3)

/-- Scenario invariant for the eviction-bound property: a consistent store
with fixed configuration `M`, every stored identity drawn from the
already-consumed inputs, and the counter within the high watermark. -/
def C2Inv (M : Nat) (used : List Nat) (s : State) : Prop :=
  Inv s ∧ s.m_maxOrphans = M ∧
  (∀ x ∈ s.m_proofs, x.proof.id ∈ used) ∧
  s.m_numOrphans ≤ 5 * M / 4

end DoubleSpendProofStorage

open DoubleSpendProofStorage

/-- States reachable from a freshly-constructed store by any sequence of the
public mutating operations (queries do not change state; an operation that
throws produces no new state). -/
inductive Reachable : State → Prop where
  | init (k0 k1 maxOrphans : Nat) (secs : Int) :
      Reachable (mkStorage k0 k1 maxOrphans secs)
  | add_ok {s s' : State} {p : DoubleSpendProof} {b : Bool} :
      Reachable s → add s p = .ok (s', b) → Reachable s'
  | addOrphan_ok {s s' : State} {p : DoubleSpendProof} {nodeId now : Int} :
      Reachable s → addOrphan s p nodeId now = .ok s' → Reachable s'
  | claimOrphan_ok {s s' : State} {hash : Nat} :
      Reachable s → claimOrphan s hash = .ok s' → Reachable s'
  | remove_ok {s s' : State} {hash : Nat} {b : Bool} :
      Reachable s → remove s hash = .ok (s', b) → Reachable s'
  | clear_step {s : State} : Reachable s → Reachable (clear s)
  | markProofRejected_step {s : State} {hash : Nat} :
      Reachable s → Reachable (markProofRejected s hash)
  | newBlockFound_step {s : State} : Reachable s → Reachable (newBlockFound s)
  | setMaxOrphans_step {s : State} {n : Nat} : Reachable s → Reachable (setMaxOrphans s n)
  | setSecondsToKeepOrphans_step {s : State} {secs : Int} :
      Reachable s → Reachable (setSecondsToKeepOrphans s secs)

namespace DoubleSpendProofStorage

/-! Helper lemmas about the list model of the record index. -/

theorem insertTS_perm (e : Entry) (l : List Entry) : (insertTS e l).Perm (e :: l) := by
  induction l with
  | nil => simp [insertTS]
  | cons x xs ih =>
    by_cases h : x.timeStamp ≤ e.timeStamp
    · simp only [insertTS, if_pos h]
      exact (ih.cons x).trans (List.Perm.swap e x xs)
    · simp [insertTS, if_neg h]

theorem mem_insertTS {x e : Entry} {l : List Entry} :
    x ∈ insertTS e l ↔ x = e ∨ x ∈ l := by
  rw [(insertTS_perm e l).mem_iff]
  simp

theorem countOrphans_insertTS (e : Entry) (l : List Entry) :
    countOrphans (insertTS e l) = countOrphans l + (if e.orphan then 1 else 0) := by
  unfold countOrphans
  rw [List.Perm.countP_eq _ (insertTS_perm e l), List.countP_cons]

theorem entryIds_insertTS_perm (e : Entry) (l : List Entry) :
    (entryIds (insertTS e l)).Perm (e.proof.id :: entryIds l) := by
  unfold entryIds
  exact List.Perm.map _ (insertTS_perm e l)

theorem countOrphans_append (l₁ l₂ : List Entry) :
    countOrphans (l₁ ++ l₂) = countOrphans l₁ + countOrphans l₂ :=
  List.countP_append _ _ _

theorem entryIds_append (l₁ l₂ : List Entry) :
    entryIds (l₁ ++ l₂) = entryIds l₁ ++ entryIds l₂ :=
  List.map_append _ _ _

theorem findEntry_eq_none_iff {l : List Entry} {h : Nat} :
    findEntry l h = none ↔ ∀ e ∈ l, e.proof.id ≠ h := by
  unfold findEntry
  rw [List.find?_eq_none]
  simp

theorem findEntry_some_id {l : List Entry} {h : Nat} {e : Entry}
    (hf : findEntry l h = some e) : e.proof.id = h := by
  have := List.find?_some hf
  simpa using this

theorem findEntry_some_mem {l : List Entry} {h : Nat} {e : Entry}
    (hf : findEntry l h = some e) : e ∈ l :=
  List.mem_of_find?_eq_some hf

theorem findEntry_decomp {l : List Entry} {h : Nat} {e : Entry}
    (hf : findEntry l h = some e) :
    ∃ l₁ l₂, l = l₁ ++ e :: l₂ ∧ ∀ x ∈ l₁, (x.proof.id == h) = false := by
  induction l with
  | nil => simp [findEntry] at hf
  | cons a as ih =>
    by_cases ha : (a.proof.id == h) = true
    · refine ⟨[], as, ?_, by simp⟩
      unfold findEntry at hf
      rw [List.find?_cons_of_pos (p := fun x : Entry => x.proof.id == h) _ ha] at hf
      simp_all
    · have hf' : findEntry as h = some e := by
        unfold findEntry at hf ⊢
        rwa [List.find?_cons_of_neg (p := fun x : Entry => x.proof.id == h) _ ha] at hf
      obtain ⟨l₁, l₂, rfl, hl₁⟩ := ih hf'
      exact ⟨a :: l₁, l₂, rfl, by
        intro x hx
        rcases List.mem_cons.mp hx with rfl | hx
        · simpa using ha
        · exact hl₁ x hx⟩

theorem findEntry_of_nodup {l : List Entry} {e : Entry} {h : Nat}
    (hnd : (entryIds l).Nodup) (hm : e ∈ l) (hid : e.proof.id = h) :
    findEntry l h = some e := by
  induction l with
  | nil => simp at hm
  | cons a as ih =>
    rcases List.mem_cons.mp hm with rfl | hm'
    · unfold findEntry
      rw [List.find?_cons_of_pos]
      simpa using hid
    · have hnd' : (entryIds as).Nodup := (List.nodup_cons.mp hnd).2
      have hna : a.proof.id ∉ entryIds as := (List.nodup_cons.mp hnd).1
      have ha : (a.proof.id == h) = false := by
        simp only [beq_eq_false_iff_ne, ne_eq]
        intro hcontra
        exact hna (hcontra ▸ hid ▸ List.mem_map_of_mem (fun e => e.proof.id) hm')
      unfold findEntry
      rw [List.find?_cons_of_neg _ (by simp [ha])]
      exact ih hnd' hm'

theorem modifyFirst_eq_of_prefix {p : Entry → Bool} {f : Entry → Entry}
    {l₁ l₂ : List Entry} {e : Entry}
    (h₁ : ∀ x ∈ l₁, p x = false) (he : p e = true) :
    modifyFirst p f (l₁ ++ e :: l₂) = l₁ ++ f e :: l₂ := by
  induction l₁ with
  | nil => simp [modifyFirst, he]
  | cons a as ih =>
    have ha : p a = false := h₁ a (by simp)
    simp only [List.cons_append, modifyFirst, ha]
    simp only [Bool.false_eq_true, if_false, List.cons.injEq, true_and]
    exact ih fun x hx => h₁ x (by simp [hx])

theorem eraseEntry_eq_of_prefix {h : Nat} {l₁ l₂ : List Entry} {e : Entry}
    (h₁ : ∀ x ∈ l₁, (x.proof.id == h) = false) (he : (e.proof.id == h) = true) :
    eraseEntry h (l₁ ++ e :: l₂) = l₁ ++ l₂ := by
  induction l₁ with
  | nil => simp [eraseEntry, he]
  | cons a as ih =>
    have ha : (a.proof.id == h) = false := h₁ a (by simp)
    simp only [List.cons_append, eraseEntry, ha]
    simp only [Bool.false_eq_true, if_false, List.cons.injEq, true_and]
    exact ih fun x hx => h₁ x (by simp [hx])

theorem entryIds_modifyFirst {p : Entry → Bool} {f : Entry → Entry}
    (hf : ∀ x, (f x).proof = x.proof) (l : List Entry) :
    entryIds (modifyFirst p f l) = entryIds l := by
  induction l with
  | nil => rfl
  | cons a as ih =>
    by_cases ha : p a
    · simp [modifyFirst, ha, entryIds, hf a]
    · simp only [modifyFirst, ha, Bool.false_eq_true, if_false]
      simp [entryIds] at ih ⊢
      exact ih

end DoubleSpendProofStorage

namespace DoubleSpendProofStorage

/-! Properties of the eviction sweep loop. -/

theorem sweepAux_le {dd low : Nat} {l : List Entry} {num : Nat} (h : num ≤ low) :
    sweepAux dd low l num = (l, num) := by
  cases l with
  | nil => rfl
  | cons e rest => simp [sweepAux, Nat.not_lt.mpr h]

theorem sweepAux_cons_erase {dd low num : Nat} {e : Entry} {rest : List Entry}
    (hg : low < num) (he : sweepEligible dd e = true) :
    sweepAux dd low (e :: rest) num = sweepAux dd low rest (num - 1) := by
  simp [sweepAux, hg, he]

theorem sweepAux_cons_keep {dd low num : Nat} {e : Entry} {rest : List Entry}
    (hg : low < num) (he : sweepEligible dd e = false) :
    sweepAux dd low (e :: rest) num
      = (e :: (sweepAux dd low rest num).1, (sweepAux dd low rest num).2) := by
  simp [sweepAux, hg, he]

theorem sweepAux_sublist (dd low : Nat) (l : List Entry) (num : Nat) :
    (sweepAux dd low l num).1.Sublist l := by
  induction l generalizing num with
  | nil => simp [sweepAux]
  | cons e rest ih =>
    by_cases hg : low < num
    · by_cases he : sweepEligible dd e
      · rw [sweepAux_cons_erase hg he]
        exact (ih (num - 1)).trans (List.sublist_cons_self e rest)
      · rw [sweepAux_cons_keep hg (by simpa using he)]
        exact (ih num).cons₂ e
    · rw [sweepAux_le (Nat.not_lt.mp hg)]

theorem sweepAux_count (dd low : Nat) (l : List Entry) (num : Nat) :
    countOrphans (sweepAux dd low l num).1 + num
      = countOrphans l + (sweepAux dd low l num).2 := by
  induction l generalizing num with
  | nil => simp [sweepAux]
  | cons e rest ih =>
    by_cases hg : low < num
    · by_cases he : sweepEligible dd e
      · have horph : e.orphan = true := by
          unfold sweepEligible at he
          exact (Bool.and_eq_true _ _ ▸ he).1
        rw [sweepAux_cons_erase hg he]
        have hstep := ih (num - 1)
        have hcp : countOrphans (e :: rest) = countOrphans rest + 1 := by
          unfold countOrphans
          simp [List.countP_cons, horph]
        omega
      · rw [sweepAux_cons_keep hg (by simpa using he)]
        have hstep := ih num
        have hcp : ∀ tail : List Entry, countOrphans (e :: tail)
            = countOrphans tail + (if e.orphan then 1 else 0) := by
          intro tail
          unfold countOrphans
          simp [List.countP_cons]
        rw [hcp, hcp]
        omega
    · rw [sweepAux_le (Nat.not_lt.mp hg)]

theorem sweepAux_len (dd low : Nat) (l : List Entry) (num : Nat) :
    (sweepAux dd low l num).1.length + num = l.length + (sweepAux dd low l num).2 := by
  induction l generalizing num with
  | nil => simp [sweepAux]
  | cons e rest ih =>
    by_cases hg : low < num
    · by_cases he : sweepEligible dd e
      · rw [sweepAux_cons_erase hg he]
        have hstep := ih (num - 1)
        simp only [List.length_cons]
        omega
      · rw [sweepAux_cons_keep hg (by simpa using he)]
        have hstep := ih num
        simp only [List.length_cons]
        omega
    · rw [sweepAux_le (Nat.not_lt.mp hg)]

theorem sweepAux_final (dd low : Nat) (l : List Entry) (num : Nat) (h : low < num) :
    (sweepAux dd low l num).2 = max low (num - l.countP (sweepEligible dd)) := by
  induction l generalizing num with
  | nil => simp [sweepAux]; omega
  | cons e rest ih =>
    by_cases he : sweepEligible dd e
    · rw [sweepAux_cons_erase h he]
      have hcp : List.countP (sweepEligible dd) (e :: rest)
          = List.countP (sweepEligible dd) rest + 1 := by
        simp [List.countP_cons, he]
      rw [hcp]
      by_cases h' : low < num - 1
      · rw [ih (num - 1) h']
        omega
      · have hnum : num - 1 = low := by omega
        rw [hnum, sweepAux_le (Nat.le_refl low)]
        omega
    · rw [sweepAux_cons_keep h (by simpa using he)]
      have hcp : List.countP (sweepEligible dd) (e :: rest)
          = List.countP (sweepEligible dd) rest := by
        simp [List.countP_cons, he]
      rw [hcp]
      exact ih num h

theorem sweepAux_mem_keep {dd low : Nat} {l : List Entry} {num : Nat} {x : Entry}
    (hm : x ∈ l) (hne : sweepEligible dd x = false) :
    x ∈ (sweepAux dd low l num).1 := by
  induction l generalizing num with
  | nil => simp at hm
  | cons e rest ih =>
    by_cases hg : low < num
    · by_cases he : sweepEligible dd e
      · rw [sweepAux_cons_erase hg he]
        rcases List.mem_cons.mp hm with rfl | hm'
        · rw [he] at hne; exact absurd hne (by simp)
        · exact ih hm'
      · rw [sweepAux_cons_keep hg (by simpa using he)]
        rcases List.mem_cons.mp hm with rfl | hm'
        · exact List.mem_cons_self x _
        · exact List.mem_cons_of_mem e (ih hm')
    · rw [sweepAux_le (Nat.not_lt.mp hg)]
      exact hm

theorem sweepAux_erased_eligible {dd low : Nat} {l : List Entry} {num : Nat} {x : Entry}
    (hm : x ∈ l) (hout : x ∉ (sweepAux dd low l num).1) :
    sweepEligible dd x = true := by
  by_cases hx : sweepEligible dd x
  · exact hx
  · exact absurd (sweepAux_mem_keep hm (by simpa using hx)) hout

theorem sweepAux_oldest_first {dd low : Nat} {l : List Entry} {num : Nat}
    (hsort : l.Pairwise fun a b => a.timeStamp ≤ b.timeStamp) :
    ∀ x ∈ l, x ∉ (sweepAux dd low l num).1 →
    ∀ y ∈ (sweepAux dd low l num).1, sweepEligible dd y = true →
    x.timeStamp ≤ y.timeStamp := by
  induction l generalizing num with
  | nil => intro x hx; simp at hx
  | cons e rest ih =>
    intro x hx hxout y hy hyel
    by_cases hg : low < num
    · by_cases he : sweepEligible dd e
      · rw [sweepAux_cons_erase hg he] at hxout hy
        rcases List.mem_cons.mp hx with rfl | hx'
        · exact (List.pairwise_cons.mp hsort).1 y
            ((sweepAux_sublist dd low rest (num - 1)).mem hy)
        · exact ih (List.pairwise_cons.mp hsort).2 x hx' hxout y hy hyel
      · rw [sweepAux_cons_keep hg (by simpa using he)] at hxout hy
        simp only [List.mem_cons] at hxout
        push_neg at hxout
        rcases List.mem_cons.mp hx with rfl | hx'
        · exact absurd rfl hxout.1
        · rcases List.mem_cons.mp hy with rfl | hy'
          · rw [hyel] at he; exact absurd rfl he
          · exact ih (List.pairwise_cons.mp hsort).2 x hx' hxout.2 y hy' hyel
    · rw [sweepAux_le (Nat.not_lt.mp hg)] at hxout
      exact absurd hx hxout

end DoubleSpendProofStorage

namespace DoubleSpendProofStorage

/-! Lemmas about the individual store operations. -/

theorem checkOrphanLimit_le {s : State} {dd : Nat}
    (h : s.m_numOrphans ≤ 5 * s.m_maxOrphans / 4) :
    checkOrphanLimit s dd = s := by
  simp [checkOrphanLimit, Nat.not_lt.mpr h]

theorem checkOrphanLimit_gt {s : State} {dd : Nat}
    (h : 5 * s.m_maxOrphans / 4 < s.m_numOrphans) :
    checkOrphanLimit s dd =
      { s with m_proofs := (sweepAux dd s.m_maxOrphans s.m_proofs s.m_numOrphans).1,
               m_numOrphans := (sweepAux dd s.m_maxOrphans s.m_proofs s.m_numOrphans).2 } := by
  simp [checkOrphanLimit, h]

theorem decrementOrphans_ok {num n : Nat} (h : n ≤ num) :
    decrementOrphans num n = .ok (num - n) := by
  unfold decrementOrphans
  by_cases hn : n = 0
  · subst hn; simp
  · simp [hn, Nat.not_lt.mpr h]

theorem add_empty {s : State} {p : DoubleSpendProof} (hp : p.empty = true) :
    add s p = .error .invalidArgument := by
  simp [add, hp]

theorem add_fresh {s : State} {p : DoubleSpendProof} (hp : p.empty = false)
    (hf : findEntry s.m_proofs p.id = none) :
    add s p = .ok ({ s with m_proofs := insertTS (newEntry p) s.m_proofs }, true) := by
  simp [add, hp, hf]

theorem add_found_nonorphan {s : State} {p : DoubleSpendProof} {e : Entry}
    (hp : p.empty = false) (hf : findEntry s.m_proofs p.id = some e)
    (ho : e.orphan = false) :
    add s p = .ok (s, false) := by
  simp [add, hp, hf, ho]

theorem add_found_orphan {s : State} {p : DoubleSpendProof} {e : Entry}
    (hp : p.empty = false) (hf : findEntry s.m_proofs p.id = some e)
    (ho : e.orphan = true) (hc : 1 ≤ s.m_numOrphans) :
    add s p = .ok ({ s with
      m_numOrphans := s.m_numOrphans - 1
      m_proofs := modifyFirst (fun x => x.proof.id == p.id)
        (fun x => { x with orphan := false }) s.m_proofs }, false) := by
  simp [add, hp, hf, ho, decrementOrphans_ok hc, Except.bind, bind]

theorem demote_facts {l : List Entry} {h : Nat} {e : Entry}
    (hnd : (entryIds l).Nodup) (hf : findEntry l h = some e) (ho : e.orphan = true)
    (hne : ∀ x ∈ l, x.proof.empty = false) :
    entryIds (modifyFirst (fun x => x.proof.id == h)
        (fun x => { x with orphan := false }) l) = entryIds l ∧
    countOrphans (modifyFirst (fun x => x.proof.id == h)
        (fun x => { x with orphan := false }) l) + 1 = countOrphans l ∧
    findEntry (modifyFirst (fun x => x.proof.id == h)
        (fun x => { x with orphan := false }) l) h = some { e with orphan := false } ∧
    (modifyFirst (fun x => x.proof.id == h)
        (fun x => { x with orphan := false }) l).length = l.length ∧
    (∀ x ∈ modifyFirst (fun x => x.proof.id == h)
        (fun x => { x with orphan := false }) l, x.proof.empty = false) ∧
    1 ≤ countOrphans l := by
  obtain ⟨l₁, l₂, rfl, hl₁⟩ := findEntry_decomp hf
  have hid : e.proof.id = h := findEntry_some_id hf
  have heq : (e.proof.id == h) = true := by simpa using hid
  have hmod : modifyFirst (fun x => x.proof.id == h)
      (fun x => { x with orphan := false }) (l₁ ++ e :: l₂)
      = l₁ ++ { e with orphan := false } :: l₂ :=
    modifyFirst_eq_of_prefix hl₁ heq
  rw [hmod]
  have hids : entryIds (l₁ ++ { e with orphan := false } :: l₂)
      = entryIds (l₁ ++ e :: l₂) := by
    simp [entryIds]
  have hcount : countOrphans (l₁ ++ e :: l₂)
      = countOrphans l₁ + countOrphans l₂ + 1 := by
    unfold countOrphans
    rw [List.countP_append, List.countP_cons]
    simp only [ho, if_true]
    omega
  have hcount' : countOrphans (l₁ ++ { e with orphan := false } :: l₂)
      = countOrphans l₁ + countOrphans l₂ := by
    unfold countOrphans
    rw [List.countP_append, List.countP_cons]
    simp
  refine ⟨hids, by omega, ?_, by simp, ?_, by omega⟩
  · exact findEntry_of_nodup (hids ▸ hnd)
      (List.mem_append.mpr (Or.inr (List.mem_cons_self _ _))) hid
  · intro x hx
    rcases List.mem_append.mp hx with hx₁ | hx₂
    · exact hne x (List.mem_append.mpr (Or.inl hx₁))
    · rcases List.mem_cons.mp hx₂ with rfl | hx₃
      · exact hne e (List.mem_append.mpr (Or.inr (List.mem_cons_self _ _)))
      · exact hne x (List.mem_append.mpr (Or.inr (List.mem_cons_of_mem _ hx₃)))

theorem erase_facts {l : List Entry} {h : Nat} {e : Entry}
    (hnd : (entryIds l).Nodup) (hf : findEntry l h = some e) :
    countOrphans (eraseEntry h l) + (if e.orphan then 1 else 0) = countOrphans l ∧
    (entryIds (eraseEntry h l)).Nodup ∧
    (∀ x ∈ eraseEntry h l, x ∈ l) ∧
    (eraseEntry h l).length + 1 = l.length ∧
    h ∉ entryIds (eraseEntry h l) := by
  obtain ⟨l₁, l₂, rfl, hl₁⟩ := findEntry_decomp hf
  have hid : e.proof.id = h := findEntry_some_id hf
  have heq : (e.proof.id == h) = true := by simpa using hid
  have herase : eraseEntry h (l₁ ++ e :: l₂) = l₁ ++ l₂ :=
    eraseEntry_eq_of_prefix hl₁ heq
  rw [herase]
  have hperm : (entryIds (l₁ ++ e :: l₂)).Perm (h :: entryIds (l₁ ++ l₂)) := by
    unfold entryIds
    rw [List.map_append, List.map_cons, hid, List.map_append]
    exact List.perm_middle
  have hnd' : (h :: entryIds (l₁ ++ l₂)).Nodup := hperm.nodup_iff.mp hnd
  have hcount : countOrphans (l₁ ++ e :: l₂)
      = countOrphans (l₁ ++ l₂) + (if e.orphan then 1 else 0) := by
    unfold countOrphans
    rw [List.countP_append, List.countP_cons, List.countP_append]
    omega
  refine ⟨by omega, (List.nodup_cons.mp hnd').2, ?_, by simp; omega,
    (List.nodup_cons.mp hnd').1⟩
  intro x hx
  rcases List.mem_append.mp hx with hx₁ | hx₂
  · exact List.mem_append.mpr (Or.inl hx₁)
  · exact List.mem_append.mpr (Or.inr (List.mem_cons_of_mem _ hx₂))

theorem length_insertTS (e : Entry) (l : List Entry) :
    (insertTS e l).length = l.length + 1 := by
  have := (insertTS_perm e l).length_eq
  simpa using this

theorem insert_middle_facts {l₁ l₂ : List Entry} {e e2 : Entry} {h : Nat}
    (hnd : (entryIds (l₁ ++ e :: l₂)).Nodup) (hide : e.proof.id = h)
    (hide2 : e2.proof.id = h) :
    (entryIds (insertTS e2 (l₁ ++ l₂))).Nodup ∧
    findEntry (insertTS e2 (l₁ ++ l₂)) h = some e2 ∧
    countOrphans (insertTS e2 (l₁ ++ l₂))
      = countOrphans (l₁ ++ l₂) + (if e2.orphan then 1 else 0) := by
  have hperm : (entryIds (l₁ ++ e :: l₂)).Perm (h :: entryIds (l₁ ++ l₂)) := by
    unfold entryIds
    rw [List.map_append, List.map_cons, hide, List.map_append]
    exact List.perm_middle
  have hnd' : (h :: entryIds (l₁ ++ l₂)).Nodup := hperm.nodup_iff.mp hnd
  have hperm2 : (entryIds (insertTS e2 (l₁ ++ l₂))).Perm (h :: entryIds (l₁ ++ l₂)) := by
    have := entryIds_insertTS_perm e2 (l₁ ++ l₂)
    rwa [hide2] at this
  refine ⟨hperm2.nodup_iff.mpr hnd', ?_, countOrphans_insertTS e2 (l₁ ++ l₂)⟩
  exact findEntry_of_nodup (hperm2.nodup_iff.mpr hnd')
    (mem_insertTS.mpr (Or.inl rfl)) hide2

end DoubleSpendProofStorage

namespace DoubleSpendProofStorage

theorem countOrphans_pos_of_orphan {l : List Entry} {e : Entry}
    (hm : e ∈ l) (ho : e.orphan = true) : 1 ≤ countOrphans l := by
  unfold countOrphans
  exact List.countP_pos_iff.mpr ⟨e, hm, ho⟩

theorem add_ok_spec {s : State} {p : DoubleSpendProof}
    (hInv : Inv s) (hp : p.empty = false) :
    ∃ s₁ b, add s p = .ok (s₁, b) ∧ Inv s₁ ∧
      s₁.m_maxOrphans = s.m_maxOrphans ∧ s₁.m_recentRejects = s.m_recentRejects ∧
      s₁.m_secondsToKeepOrphans = s.m_secondsToKeepOrphans ∧ s₁.k0 = s.k0 ∧ s₁.k1 = s.k1 ∧
      (∃ e, findEntry s₁.m_proofs p.id = some e ∧ e.orphan = false ∧
        (∀ e₀, findEntry s.m_proofs p.id = some e₀ →
          e.proof = e₀.proof ∧ e.nodeId = e₀.nodeId ∧ e.timeStamp = e₀.timeStamp ∧
          s₁.m_numOrphans + (if e₀.orphan then 1 else 0) = s.m_numOrphans ∧
          s₁.m_proofs.length = s.m_proofs.length) ∧
        (findEntry s.m_proofs p.id = none →
          e = newEntry p ∧ s₁.m_numOrphans = s.m_numOrphans ∧
          s₁.m_proofs.length = s.m_proofs.length + 1)) ∧
      (∀ x ∈ s₁.m_proofs, x.proof.id = p.id ∨ x.proof.id ∈ entryIds s.m_proofs) := by
  obtain ⟨hnd, hcnt, hne⟩ := hInv
  cases hfind : findEntry s.m_proofs p.id with
  | none =>
    refine ⟨_, _, add_fresh hp hfind, ?_, rfl, rfl, rfl, rfl, rfl, ?_, ?_⟩
    · refine ⟨?_, ?_, ?_⟩
      · have hperm := entryIds_insertTS_perm (newEntry p) s.m_proofs
        refine hperm.nodup_iff.mpr (List.nodup_cons.mpr ⟨?_, hnd⟩)
        intro hmem
        obtain ⟨y, hy, hyid⟩ := List.mem_map.mp hmem
        exact (findEntry_eq_none_iff.mp hfind y hy) hyid
      · rw [show ({ s with m_proofs := insertTS (newEntry p) s.m_proofs } : State).m_numOrphans
            = s.m_numOrphans from rfl, countOrphans_insertTS]
        simpa [newEntry] using hcnt
      · intro x hx
        rcases mem_insertTS.mp hx with rfl | hx'
        · exact hp
        · exact hne x hx'
    · refine ⟨newEntry p, ?_, rfl, ?_, fun _ => ⟨rfl, rfl, length_insertTS _ _⟩⟩
      · have hperm := entryIds_insertTS_perm (newEntry p) s.m_proofs
        have hnd' : (entryIds (insertTS (newEntry p) s.m_proofs)).Nodup := by
          refine hperm.nodup_iff.mpr (List.nodup_cons.mpr ⟨?_, hnd⟩)
          intro hmem
          obtain ⟨y, hy, hyid⟩ := List.mem_map.mp hmem
          exact (findEntry_eq_none_iff.mp hfind y hy) hyid
        exact findEntry_of_nodup hnd' (mem_insertTS.mpr (Or.inl rfl)) rfl
      · intro e₀ h₀
        exact absurd h₀ (by simp)
    · intro x hx
      rcases mem_insertTS.mp hx with rfl | hx'
      · exact Or.inl rfl
      · exact Or.inr (List.mem_map_of_mem _ hx')
  | some e₀ =>
    cases ho : e₀.orphan with
    | false =>
      refine ⟨s, false, add_found_nonorphan hp hfind ho, ⟨hnd, hcnt, hne⟩,
        rfl, rfl, rfl, rfl, rfl, ?_, fun x hx => Or.inr (List.mem_map_of_mem _ hx)⟩
      refine ⟨e₀, hfind, ho, ?_, ?_⟩
      · intro e₁ h₁
        injection h₁ with h₁
        subst h₁
        simp [ho]
      · intro hcontra
        exact absurd hcontra (by simp)
    | true =>
      have hmem : e₀ ∈ s.m_proofs := findEntry_some_mem hfind
      have hone : 1 ≤ s.m_numOrphans := hcnt ▸ countOrphans_pos_of_orphan hmem ho
      obtain ⟨hids, hcount, hfind', hlen, hne', hcpos⟩ :=
        demote_facts (h := p.id) hnd hfind ho hne
      refine ⟨_, _, add_found_orphan hp hfind ho hone, ⟨?_, ?_, hne'⟩,
        rfl, rfl, rfl, rfl, rfl, ?_, ?_⟩
      · show (entryIds (modifyFirst (fun x => x.proof.id == p.id)
            (fun x => { x with orphan := false }) s.m_proofs)).Nodup
        rw [hids]; exact hnd
      · show s.m_numOrphans - 1 = countOrphans (modifyFirst (fun x => x.proof.id == p.id)
            (fun x => { x with orphan := false }) s.m_proofs)
        omega
      · refine ⟨{ e₀ with orphan := false }, hfind', rfl, ?_, ?_⟩
        · intro e₁ h₁
          injection h₁ with h₁
          subst h₁
          refine ⟨rfl, rfl, rfl, ?_, hlen⟩
          show s.m_numOrphans - 1 + (if e₀.orphan = true then 1 else 0) = s.m_numOrphans
          simp only [ho, if_true]
          omega
        · intro hcontra
          exact absurd hcontra (by simp)
      · intro x hx
        right
        have : entryIds (modifyFirst (fun x => x.proof.id == p.id)
            (fun x => { x with orphan := false }) s.m_proofs) = entryIds s.m_proofs := hids
        rw [← this]
        exact List.mem_map_of_mem _ hx

theorem claimOrphan_not_found {s : State} {h : Nat}
    (hf : findEntry s.m_proofs h = none) : claimOrphan s h = .ok s := by
  simp [claimOrphan, hf]

theorem claimOrphan_nonorphan {s : State} {h : Nat} {e : Entry}
    (hf : findEntry s.m_proofs h = some e) (ho : e.orphan = false) :
    claimOrphan s h = .ok s := by
  simp [claimOrphan, hf, ho]

theorem claimOrphan_spec {s : State} {h : Nat} {e : Entry}
    (hInv : Inv s) (hf : findEntry s.m_proofs h = some e) (ho : e.orphan = true) :
    ∃ s', claimOrphan s h = .ok s' ∧ Inv s' ∧
      s'.m_numOrphans + 1 = s.m_numOrphans ∧
      findEntry s'.m_proofs h = some { e with orphan := false } ∧
      s'.m_proofs.length = s.m_proofs.length ∧
      s'.m_maxOrphans = s.m_maxOrphans ∧ s'.m_recentRejects = s.m_recentRejects ∧
      s'.m_secondsToKeepOrphans = s.m_secondsToKeepOrphans ∧ s'.k0 = s.k0 ∧ s'.k1 = s.k1 := by
  obtain ⟨hnd, hcnt, hne⟩ := hInv
  have hmem : e ∈ s.m_proofs := findEntry_some_mem hf
  have hone : 1 ≤ s.m_numOrphans := hcnt ▸ countOrphans_pos_of_orphan hmem ho
  obtain ⟨hids, hcount, hfind', hlen, hne', hcpos⟩ := demote_facts (h := h) hnd hf ho hne
  have hrun : claimOrphan s h = .ok { s with
      m_numOrphans := s.m_numOrphans - 1
      m_proofs := modifyFirst (fun x => x.proof.id == h)
        (fun x => { x with orphan := false }) s.m_proofs } := by
    simp [claimOrphan, hf, ho, decrementOrphans_ok hone, Except.bind, bind]
  refine ⟨_, hrun, ⟨?_, ?_, hne'⟩,
    by show s.m_numOrphans - 1 + 1 = s.m_numOrphans; omega,
    hfind', hlen, rfl, rfl, rfl, rfl, rfl⟩
  · show (entryIds (modifyFirst (fun x => x.proof.id == h)
        (fun x => { x with orphan := false }) s.m_proofs)).Nodup
    rw [hids]; exact hnd
  · show s.m_numOrphans - 1 = countOrphans (modifyFirst (fun x => x.proof.id == h)
        (fun x => { x with orphan := false }) s.m_proofs)
    omega

theorem remove_not_found {s : State} {h : Nat}
    (hf : findEntry s.m_proofs h = none) : remove s h = .ok (s, false) := by
  simp [remove, hf]

theorem remove_spec {s : State} {h : Nat} {e : Entry}
    (hInv : Inv s) (hf : findEntry s.m_proofs h = some e) :
    ∃ s', remove s h = .ok (s', true) ∧ Inv s' ∧
      s'.m_numOrphans + (if e.orphan then 1 else 0) = s.m_numOrphans ∧
      s'.m_proofs.length + 1 = s.m_proofs.length ∧
      s'.m_maxOrphans = s.m_maxOrphans ∧ s'.m_recentRejects = s.m_recentRejects := by
  obtain ⟨hnd, hcnt, hne⟩ := hInv
  have hmem : e ∈ s.m_proofs := findEntry_some_mem hf
  have hsub : (if e.orphan then 1 else 0) ≤ s.m_numOrphans := by
    cases horph : e.orphan with
    | false => simp
    | true =>
      simpa using hcnt ▸ countOrphans_pos_of_orphan hmem horph
  obtain ⟨hcount, hnd', hmem', hlen, hnotin⟩ := erase_facts (h := h) hnd hf
  have hrun : remove s h = .ok ({ s with
      m_numOrphans := s.m_numOrphans - (if e.orphan then 1 else 0)
      m_proofs := eraseEntry h s.m_proofs }, true) := by
    simp only [remove, hf, decrementOrphans_ok hsub, Except.bind, bind]
  refine ⟨_, hrun, ⟨hnd', ?_, fun x hx => hne x (hmem' x hx)⟩,
    by show s.m_numOrphans - (if e.orphan = true then 1 else 0)
          + (if e.orphan = true then 1 else 0) = s.m_numOrphans
       omega,
    hlen, rfl, rfl⟩
  show s.m_numOrphans - (if e.orphan = true then 1 else 0) = countOrphans (eraseEntry h s.m_proofs)
  omega

end DoubleSpendProofStorage

namespace DoubleSpendProofStorage

theorem addOrphan_eq {s s₁ : State} {b : Bool} {p : DoubleSpendProof}
    {nid now : Int} {e : Entry}
    (hadd : add s p = .ok (s₁, b)) (hf : findEntry s₁.m_proofs p.id = some e) :
    addOrphan s p nid now =
      .ok { (incrementOrphans
              { s₁ with
                m_proofs := modifyFirst (fun x => x.proof.id == p.id)
                              (fun _ =>
                                { proof := e.proof
                                  orphan := e.orphan
                                  nodeId := if e.nodeId < 0 ∧ -1 < nid then nid else e.nodeId
                                  timeStamp := if e.timeStamp < 0 then now else e.timeStamp })
                              s₁.m_proofs }
              (if e.orphan then 0 else 1) p.id) with
            m_proofs := insertTS
                          { proof := e.proof
                            orphan := true
                            nodeId := if e.nodeId < 0 ∧ -1 < nid then nid else e.nodeId
                            timeStamp := if e.timeStamp < 0 then now else e.timeStamp }
                          (eraseEntry p.id (incrementOrphans
                            { s₁ with
                              m_proofs := modifyFirst (fun x => x.proof.id == p.id)
                                            (fun _ =>
                                              { proof := e.proof
                                                orphan := e.orphan
                                                nodeId := if e.nodeId < 0 ∧ -1 < nid then nid
                                                          else e.nodeId
                                                timeStamp := if e.timeStamp < 0 then now
                                                             else e.timeStamp })
                                            s₁.m_proofs }
                            (if e.orphan then 0 else 1) p.id).m_proofs) } := by
  simp only [addOrphan, hadd, Except.bind, bind, hf]

end DoubleSpendProofStorage

namespace DoubleSpendProofStorage

theorem addOrphan_ok_characterize {s s₁ : State} {b : Bool}
    {p : DoubleSpendProof} {e : Entry} (nid now : Int)
    (hadd : add s p = .ok (s₁, b)) (hInv₁ : Inv s₁)
    (hf : findEntry s₁.m_proofs p.id = some e) (ho : e.orphan = false) :
    ∃ s', addOrphan s p nid now = .ok s' ∧ Inv s' ∧
      s'.m_maxOrphans = s₁.m_maxOrphans ∧
      s'.m_recentRejects = s₁.m_recentRejects ∧
      s'.m_secondsToKeepOrphans = s₁.m_secondsToKeepOrphans ∧
      s'.k0 = s₁.k0 ∧ s'.k1 = s₁.k1 ∧
      findEntry s'.m_proofs p.id = some
        { proof := e.proof
          orphan := true
          nodeId := if e.nodeId < 0 ∧ -1 < nid then nid else e.nodeId
          timeStamp := if e.timeStamp < 0 then now else e.timeStamp } ∧
      (s₁.m_numOrphans + 1 ≤ 5 * s₁.m_maxOrphans / 4 →
        s'.m_numOrphans = s₁.m_numOrphans + 1 ∧
        s'.m_proofs.length = s₁.m_proofs.length) ∧
      (5 * s₁.m_maxOrphans / 4 < s₁.m_numOrphans + 1 →
        s'.m_numOrphans = max s₁.m_maxOrphans 1) ∧
      (∀ x ∈ s'.m_proofs, x.proof.id = p.id ∨ x.proof.id ∈ entryIds s₁.m_proofs) := by
  rw [addOrphan_eq hadd hf]
  simp only [ho, Bool.false_eq_true, if_false]
  generalize hE1 : ({ proof := e.proof
                      orphan := false
                      nodeId := if e.nodeId < 0 ∧ -1 < nid then nid else e.nodeId
                      timeStamp := if e.timeStamp < 0 then now else e.timeStamp } : Entry) = e1
  generalize hE2 : ({ proof := e.proof
                      orphan := true
                      nodeId := if e.nodeId < 0 ∧ -1 < nid then nid else e.nodeId
                      timeStamp := if e.timeStamp < 0 then now else e.timeStamp } : Entry) = e2
  have he1proof : e1.proof = e.proof := by rw [← hE1]
  have he1orph : e1.orphan = false := by rw [← hE1]
  have he2proof : e2.proof = e.proof := by rw [← hE2]
  have he2orph : e2.orphan = true := by rw [← hE2]
  have hid : e.proof.id = p.id := findEntry_some_id hf
  obtain ⟨hnd, hcnt, hne⟩ := hInv₁
  obtain ⟨l₁, l₂, hdec, hl₁⟩ := findEntry_decomp hf
  have heq : (e.proof.id == p.id) = true := by simpa using hid
  have he1id : e1.proof.id = p.id := by rw [he1proof]; exact hid
  have he2id : e2.proof.id = p.id := by rw [he2proof]; exact hid
  have heq1 : (e1.proof.id == p.id) = true := by simpa using he1id
  have hmod : modifyFirst (fun x => x.proof.id == p.id) (fun _ => e1) s₁.m_proofs
      = l₁ ++ e1 :: l₂ := by
    rw [hdec]
    exact modifyFirst_eq_of_prefix hl₁ heq
  rw [hmod]
  have hids1 : entryIds (l₁ ++ e1 :: l₂) = entryIds s₁.m_proofs := by
    rw [hdec]
    simp [entryIds, he1proof]
  have hnd1 : (entryIds (l₁ ++ e1 :: l₂)).Nodup := by rw [hids1]; exact hnd
  have hcnt1 : countOrphans (l₁ ++ e1 :: l₂) = s₁.m_numOrphans := by
    rw [hcnt, hdec]
    unfold countOrphans
    rw [List.countP_append, List.countP_cons, List.countP_append, List.countP_cons]
    simp [he1orph, ho]
  have hsplit1 : countOrphans (l₁ ++ e1 :: l₂) = countOrphans (l₁ ++ l₂) := by
    unfold countOrphans
    rw [List.countP_append, List.countP_cons, List.countP_append]
    simp [he1orph]
  have hne1 : ∀ x ∈ l₁ ++ e1 :: l₂, x.proof.empty = false := by
    intro x hx
    rcases List.mem_append.mp hx with hx₁ | hx₂
    · exact hne x (by rw [hdec]; exact List.mem_append.mpr (Or.inl hx₁))
    · rcases List.mem_cons.mp hx₂ with rfl | hx₃
      · rw [he1proof]
        exact hne e (by
          rw [hdec]
          exact List.mem_append.mpr (Or.inr (List.mem_cons_self _ _)))
      · exact hne x (by
          rw [hdec]
          exact List.mem_append.mpr (Or.inr (List.mem_cons_of_mem _ hx₃)))
  have hidsub : ∀ x ∈ l₁ ++ e1 :: l₂, x.proof.id ∈ entryIds s₁.m_proofs := by
    intro x hx
    rw [← hids1]
    exact List.mem_map_of_mem _ hx
  have hinc : incrementOrphans { s₁ with m_proofs := l₁ ++ e1 :: l₂ } 1 p.id
      = checkOrphanLimit { s₁ with
              m_proofs := l₁ ++ e1 :: l₂
              m_numOrphans := s₁.m_numOrphans + 1 } p.id := rfl
  rw [hinc]
  rcases Nat.lt_or_ge (5 * s₁.m_maxOrphans / 4) (s₁.m_numOrphans + 1) with hwm | hwm
  · -- sweep case
    have hchk : checkOrphanLimit { s₁ with
              m_proofs := l₁ ++ e1 :: l₂
              m_numOrphans := s₁.m_numOrphans + 1 } p.id
        = { s₁ with
            m_proofs :=
              (sweepAux p.id s₁.m_maxOrphans (l₁ ++ e1 :: l₂) (s₁.m_numOrphans + 1)).1
            m_numOrphans :=
              (sweepAux p.id s₁.m_maxOrphans (l₁ ++ e1 :: l₂) (s₁.m_numOrphans + 1)).2 } :=
      checkOrphanLimit_gt hwm
    rw [hchk]
    have hlow : s₁.m_maxOrphans < s₁.m_numOrphans + 1 := by omega
    have hpnotl₂ : p.id ∉ entryIds l₂ := by
      have hnd0 : (entryIds l₁ ++ e.proof.id :: entryIds l₂).Nodup := by
        have := hdec ▸ hnd
        simpa [entryIds] using this
      have := (List.nodup_cons.mp (List.Nodup.of_append_right hnd0)).1
      rwa [hid] at this
    have helig : (l₁ ++ e1 :: l₂).countP (sweepEligible p.id)
        = countOrphans (l₁ ++ e1 :: l₂) := by
      unfold countOrphans
      apply List.countP_congr
      intro x hx
      constructor
      · intro hel
        unfold sweepEligible at hel
        exact (Bool.and_eq_true _ _ ▸ hel).1
      · intro horph
        have hxid : x.proof.id ≠ p.id := by
          rcases List.mem_append.mp hx with hx₁ | hx₂
          · intro hcon
            have := hl₁ x hx₁
            rw [show (x.proof.id == p.id) = true from by simpa using hcon] at this
            exact absurd this (by simp)
          · rcases List.mem_cons.mp hx₂ with rfl | hx₃
            · rw [he1orph] at horph
              exact absurd horph (by simp)
            · intro hcon
              exact hpnotl₂ (hcon ▸ List.mem_map_of_mem (fun y => y.proof.id) hx₃)
        unfold sweepEligible
        rw [horph]
        simp only [Bool.true_and]
        simp [Ne.symm hxid]
    have hfinal : (sweepAux p.id s₁.m_maxOrphans (l₁ ++ e1 :: l₂) (s₁.m_numOrphans + 1)).2
        = max s₁.m_maxOrphans 1 := by
      rw [sweepAux_final _ _ _ _ hlow, helig, hcnt1]
      have : s₁.m_numOrphans + 1 - s₁.m_numOrphans = 1 := by omega
      rw [this]
    have he1k : e1 ∈ (sweepAux p.id s₁.m_maxOrphans (l₁ ++ e1 :: l₂)
        (s₁.m_numOrphans + 1)).1 := by
      apply sweepAux_mem_keep
      · exact List.mem_append.mpr (Or.inr (List.mem_cons_self _ _))
      · simp [sweepEligible, he1orph]
    have hsubK := sweepAux_sublist p.id s₁.m_maxOrphans (l₁ ++ e1 :: l₂) (s₁.m_numOrphans + 1)
    have hndK : (entryIds (sweepAux p.id s₁.m_maxOrphans (l₁ ++ e1 :: l₂)
        (s₁.m_numOrphans + 1)).1).Nodup := by
      unfold entryIds
      exact List.Nodup.sublist (hsubK.map _) (by unfold entryIds at hnd1; exact hnd1)
    have hfK : findEntry (sweepAux p.id s₁.m_maxOrphans (l₁ ++ e1 :: l₂)
        (s₁.m_numOrphans + 1)).1 p.id = some e1 :=
      findEntry_of_nodup hndK he1k he1id
    obtain ⟨k₁, k₂, hdecK, hk₁⟩ := findEntry_decomp hfK
    have heraseK : eraseEntry p.id (sweepAux p.id s₁.m_maxOrphans (l₁ ++ e1 :: l₂)
        (s₁.m_numOrphans + 1)).1 = k₁ ++ k₂ := by
      rw [hdecK]
      exact eraseEntry_eq_of_prefix hk₁ heq1
    have hprojK : ({ s₁ with
        m_proofs := (sweepAux p.id s₁.m_maxOrphans (l₁ ++ e1 :: l₂) (s₁.m_numOrphans + 1)).1
        m_numOrphans :=
          (sweepAux p.id s₁.m_maxOrphans (l₁ ++ e1 :: l₂) (s₁.m_numOrphans + 1)).2 }
          : State).m_proofs
        = (sweepAux p.id s₁.m_maxOrphans (l₁ ++ e1 :: l₂) (s₁.m_numOrphans + 1)).1 := rfl
    rw [hprojK, heraseK]
    have hndK' : (entryIds (k₁ ++ e1 :: k₂)).Nodup := hdecK ▸ hndK
    obtain ⟨hndI, hfindI, hcntI⟩ := insert_middle_facts hndK' he1id he2id
    have hcK := sweepAux_count p.id s₁.m_maxOrphans (l₁ ++ e1 :: l₂) (s₁.m_numOrphans + 1)
    have hsplitK : countOrphans (k₁ ++ e1 :: k₂) = countOrphans (k₁ ++ k₂) := by
      unfold countOrphans
      rw [List.countP_append, List.countP_cons, List.countP_append]
      simp [he1orph]
    have hK1 : 1 ≤ (sweepAux p.id s₁.m_maxOrphans (l₁ ++ e1 :: l₂)
        (s₁.m_numOrphans + 1)).2 := by
      rw [hfinal]
      exact Nat.le_max_right _ _
    rw [he2orph] at hcntI
    simp only [if_true] at hcntI
    have hcntK : countOrphans (sweepAux p.id s₁.m_maxOrphans (l₁ ++ e1 :: l₂)
        (s₁.m_numOrphans + 1)).1 = countOrphans (k₁ ++ k₂) := by
      rw [hdecK, hsplitK]
    refine ⟨_, rfl, ⟨?_, ?_, ?_⟩, rfl, rfl, rfl, rfl, rfl, ?_, ?_, ?_, ?_⟩
    · exact hndI
    · show (sweepAux p.id s₁.m_maxOrphans (l₁ ++ e1 :: l₂) (s₁.m_numOrphans + 1)).2
        = countOrphans (insertTS e2 (k₁ ++ k₂))
      omega
    · intro x hx
      rcases mem_insertTS.mp hx with rfl | hx'
      · rw [he2proof]
        exact hne e (by
          rw [hdec]
          exact List.mem_append.mpr (Or.inr (List.mem_cons_self _ _)))
      · have hxK : x ∈ k₁ ++ e1 :: k₂ := by
          rcases List.mem_append.mp hx' with h₁ | h₂
          · exact List.mem_append.mpr (Or.inl h₁)
          · exact List.mem_append.mpr (Or.inr (List.mem_cons_of_mem _ h₂))
        exact hne1 x (hsubK.mem (hdecK ▸ hxK))
    · exact hfindI
    · intro hcon
      omega
    · intro _
      show (sweepAux p.id s₁.m_maxOrphans (l₁ ++ e1 :: l₂) (s₁.m_numOrphans + 1)).2
        = max s₁.m_maxOrphans 1
      exact hfinal
    · intro x hx
      rcases mem_insertTS.mp hx with rfl | hx'
      · exact Or.inl he2id
      · have hxK : x ∈ k₁ ++ e1 :: k₂ := by
          rcases List.mem_append.mp hx' with h₁ | h₂
          · exact List.mem_append.mpr (Or.inl h₁)
          · exact List.mem_append.mpr (Or.inr (List.mem_cons_of_mem _ h₂))
        exact Or.inr (hidsub x (hsubK.mem (hdecK ▸ hxK)))
  · -- no-sweep case
    have hchk : checkOrphanLimit { s₁ with
              m_proofs := l₁ ++ e1 :: l₂
              m_numOrphans := s₁.m_numOrphans + 1 } p.id
        = { s₁ with
              m_proofs := l₁ ++ e1 :: l₂
              m_numOrphans := s₁.m_numOrphans + 1 } :=
      checkOrphanLimit_le hwm
    rw [hchk]
    have hproj : ({ s₁ with
              m_proofs := l₁ ++ e1 :: l₂
              m_numOrphans := s₁.m_numOrphans + 1 } : State).m_proofs = l₁ ++ e1 :: l₂ := rfl
    rw [hproj]
    have herase : eraseEntry p.id (l₁ ++ e1 :: l₂) = l₁ ++ l₂ :=
      eraseEntry_eq_of_prefix hl₁ heq1
    rw [herase]
    obtain ⟨hndI, hfindI, hcntI⟩ := insert_middle_facts hnd1 he1id he2id
    rw [he2orph] at hcntI
    simp only [if_true] at hcntI
    refine ⟨_, rfl, ⟨?_, ?_, ?_⟩, rfl, rfl, rfl, rfl, rfl, ?_, ?_, ?_, ?_⟩
    · exact hndI
    · show s₁.m_numOrphans + 1 = countOrphans (insertTS e2 (l₁ ++ l₂))
      omega
    · intro x hx
      rcases mem_insertTS.mp hx with rfl | hx'
      · rw [he2proof]
        exact hne e (by
          rw [hdec]
          exact List.mem_append.mpr (Or.inr (List.mem_cons_self _ _)))
      · have hx1 : x ∈ l₁ ++ e1 :: l₂ := by
          rcases List.mem_append.mp hx' with h₁ | h₂
          · exact List.mem_append.mpr (Or.inl h₁)
          · exact List.mem_append.mpr (Or.inr (List.mem_cons_of_mem _ h₂))
        exact hne1 x hx1
    · exact hfindI
    · intro _
      refine ⟨rfl, ?_⟩
      show (insertTS e2 (l₁ ++ l₂)).length = s₁.m_proofs.length
      rw [length_insertTS, hdec]
      simp
      omega
    · intro hcon
      omega
    · intro x hx
      rcases mem_insertTS.mp hx with rfl | hx'
      · exact Or.inl he2id
      · have hx1 : x ∈ l₁ ++ e1 :: l₂ := by
          rcases List.mem_append.mp hx' with h₁ | h₂
          · exact List.mem_append.mpr (Or.inl h₁)
          · exact List.mem_append.mpr (Or.inr (List.mem_cons_of_mem _ h₂))
        exact Or.inr (hidsub x hx1)

end DoubleSpendProofStorage

namespace DoubleSpendProofStorage

theorem addOrphan_empty {s : State} {p : DoubleSpendProof} {nid now : Int}
    (hp : p.empty = true) : addOrphan s p nid now = .error .invalidArgument := by
  simp [addOrphan, add_empty hp, Except.bind, bind]

end DoubleSpendProofStorage

/-- Every reachable store state satisfies the internal consistency
invariant: unique identities, counter/flag agreement, non-empty payloads. -/
theorem reachable_inv {s : State} (h : Reachable s) : Inv s := by
  induction h with
  | init k0 k1 maxOrphans secs =>
    exact ⟨by simp [mkStorage, entryIds], by simp [mkStorage, countOrphans], by
      simp [mkStorage]⟩
  | @add_ok s s' p b hr hok ih =>
    by_cases hp : p.empty
    · rw [add_empty hp] at hok
      exact absurd hok (by simp)
    · obtain ⟨s₁, b', hadd, hInv₁, _⟩ := add_ok_spec ih (by simpa using hp)
      rw [hadd] at hok
      simp only [Except.ok.injEq, Prod.mk.injEq] at hok
      exact hok.1 ▸ hInv₁
  | @addOrphan_ok s s' p nodeId now hr hok ih =>
    by_cases hp : p.empty
    · rw [addOrphan_empty hp] at hok
      exact absurd hok (by simp)
    · obtain ⟨s₁, b', hadd, hInv₁, _, _, _, _, _, ⟨e, hfe, hoe, _, _⟩, _⟩ :=
        add_ok_spec ih (by simpa using hp)
      obtain ⟨s'', hrun, hInv'', _⟩ :=
        addOrphan_ok_characterize nodeId now hadd hInv₁ hfe hoe
      rw [hrun] at hok
      simp only [Except.ok.injEq] at hok
      exact hok ▸ hInv''
  | @claimOrphan_ok s s' hash hr hok ih =>
    cases hfe : findEntry s.m_proofs hash with
    | none =>
      rw [claimOrphan_not_found hfe] at hok
      simp only [Except.ok.injEq] at hok
      exact hok ▸ ih
    | some e =>
      cases hoe : e.orphan with
      | false =>
        rw [claimOrphan_nonorphan hfe hoe] at hok
        simp only [Except.ok.injEq] at hok
        exact hok ▸ ih
      | true =>
        obtain ⟨s'', hrun, hInv'', _⟩ := claimOrphan_spec ih hfe hoe
        rw [hrun] at hok
        simp only [Except.ok.injEq] at hok
        exact hok ▸ hInv''
  | @remove_ok s s' hash b hr hok ih =>
    cases hfe : findEntry s.m_proofs hash with
    | none =>
      rw [remove_not_found hfe] at hok
      simp only [Except.ok.injEq, Prod.mk.injEq] at hok
      exact hok.1 ▸ ih
    | some e =>
      obtain ⟨s'', hrun, hInv'', _⟩ := remove_spec ih hfe
      rw [hrun] at hok
      simp only [Except.ok.injEq, Prod.mk.injEq] at hok
      exact hok.1 ▸ hInv''
  | @clear_step s hr ih =>
    exact ⟨by simp [clear, entryIds], by simp [clear, countOrphans], by simp [clear]⟩
  | @markProofRejected_step s hash hr ih => exact ih
  | @newBlockFound_step s hr ih => exact ih
  | @setMaxOrphans_step s n hr ih => exact ih
  | @setSecondsToKeepOrphans_step s secs hr ih =>
    unfold setSecondsToKeepOrphans
    by_cases hsec : (0 : Int) ≤ secs
    · simpa [hsec] using ih
    · simpa [hsec] using ih

namespace DoubleSpendProofStorage

theorem find_insert_fresh {l : List Entry} {p : DoubleSpendProof}
    (hnd : (entryIds l).Nodup) (hf : findEntry l p.id = none) :
    findEntry (insertTS (newEntry p) l) p.id = some (newEntry p) := by
  have hperm := entryIds_insertTS_perm (newEntry p) l
  have hnd' : (entryIds (insertTS (newEntry p) l)).Nodup := by
    refine hperm.nodup_iff.mpr (List.nodup_cons.mpr ⟨?_, hnd⟩)
    intro hmem
    obtain ⟨y, hy, hyid⟩ := List.mem_map.mp hmem
    exact (findEntry_eq_none_iff.mp hf y hy) hyid
  exact findEntry_of_nodup hnd' (mem_insertTS.mpr (Or.inl rfl)) rfl

theorem mkStorage_inv (k0 k1 maxOrphans : Nat) (secs : Int) :
    Inv (mkStorage k0 k1 maxOrphans secs) :=
  ⟨by simp [mkStorage, entryIds], by simp [mkStorage, countOrphans], by simp [mkStorage]⟩

theorem high_watermark_eq_floor (M : Nat) :
    5 * M / 4 = Nat.floor ((M : ℚ) * 1.25) := by
  have h125 : (1.25 : ℚ) = 5 / 4 := by norm_num
  rw [h125]
  rw [show (M : ℚ) * (5 / 4) = ((5 * M : ℕ) : ℚ) / ((4 : ℕ) : ℚ) by push_cast; ring]
  rw [Nat.floor_div_nat, Nat.floor_natCast]

end DoubleSpendProofStorage

/-- C1: in every state reachable by any sequence of public operations (add,
addOrphan, claimOrphan, remove, clear, the eviction sweeps they trigger, and
the remaining public mutators), the orphan counter returned by
`numOrphans()` equals the exact number of stored records whose orphan flag
is true. -/
theorem claim_C1_counter_flag_agreement {s : State} (h : Reachable s) :
    numOrphans s = countOrphans s.m_proofs :=
  (reachable_inv h).2.1

/-- Witness for C1 at a concrete reachable state: the store obtained from a
fresh store (maxOrphans 5) by one addOrphan call. -/
theorem claim_C1_witness :
    Reachable ((addOrphan (mkStorage 0 0 5 0) (wProof 1) 3 7).toOption.getD
      (mkStorage 0 0 5 0)) ∧
    numOrphans ((addOrphan (mkStorage 0 0 5 0) (wProof 1) 3 7).toOption.getD
      (mkStorage 0 0 5 0))
      = countOrphans ((addOrphan (mkStorage 0 0 5 0) (wProof 1) 3 7).toOption.getD
          (mkStorage 0 0 5 0)).m_proofs := by
  have hstep : addOrphan (mkStorage 0 0 5 0) (wProof 1) 3 7
      = .ok ((addOrphan (mkStorage 0 0 5 0) (wProof 1) 3 7).toOption.getD
          (mkStorage 0 0 5 0)) := rfl
  have hreach := Reachable.addOrphan_ok (Reachable.init 0 0 5 0) hstep
  exact ⟨hreach, claim_C1_counter_flag_agreement hreach⟩

/-- C10: in every reachable state every stored payload is non-empty;
`lookup` returns an empty/default proof exactly for absent identities; and
`exists` agrees with `lookup` returning a non-empty proof. -/
theorem claim_C10_lookup_exists {s : State} (hash : Nat) (h : Reachable s) :
    (∀ e ∈ s.m_proofs, e.proof.empty = false) ∧
    ((lookup s hash).empty = true ↔ findEntry s.m_proofs hash = none) ∧
    (existsEntry s hash = true ↔ (lookup s hash).empty = false) := by
  obtain ⟨hnd, hcnt, hne⟩ := reachable_inv h
  refine ⟨hne, ?_, ?_⟩
  · cases hfe : findEntry s.m_proofs hash with
    | none => simp [lookup, hfe, emptyDSP]
    | some e =>
      have := hne e (findEntry_some_mem hfe)
      simp [lookup, hfe, this]
  · cases hfe : findEntry s.m_proofs hash with
    | none => simp [lookup, hfe, emptyDSP, existsEntry]
    | some e =>
      have := hne e (findEntry_some_mem hfe)
      simp [lookup, hfe, this, existsEntry]

/-- Witness for C10 at a concrete reachable state (one record added, probed
at its own identity). -/
theorem claim_C10_witness :
    Reachable ((addOrphan (mkStorage 1 2 6 3) (wProof 4) 0 2).toOption.getD
      (mkStorage 1 2 6 3)) ∧
    ((∀ e ∈ ((addOrphan (mkStorage 1 2 6 3) (wProof 4) 0 2).toOption.getD
        (mkStorage 1 2 6 3)).m_proofs, e.proof.empty = false) ∧
      ((lookup ((addOrphan (mkStorage 1 2 6 3) (wProof 4) 0 2).toOption.getD
          (mkStorage 1 2 6 3)) 4).empty = true ↔
        findEntry ((addOrphan (mkStorage 1 2 6 3) (wProof 4) 0 2).toOption.getD
          (mkStorage 1 2 6 3)).m_proofs 4 = none) ∧
      (existsEntry ((addOrphan (mkStorage 1 2 6 3) (wProof 4) 0 2).toOption.getD
          (mkStorage 1 2 6 3)) 4 = true ↔
        (lookup ((addOrphan (mkStorage 1 2 6 3) (wProof 4) 0 2).toOption.getD
          (mkStorage 1 2 6 3)) 4).empty = false)) := by
  have hstep : addOrphan (mkStorage 1 2 6 3) (wProof 4) 0 2
      = .ok ((addOrphan (mkStorage 1 2 6 3) (wProof 4) 0 2).toOption.getD
          (mkStorage 1 2 6 3)) := rfl
  have hreach := Reachable.addOrphan_ok (Reachable.init 1 2 6 3) hstep
  exact ⟨hreach, claim_C10_lookup_exists 4 hreach⟩

/-- C8: after `clear()` the store is empty (size 0, counter 0), previously
rejected identities are no longer reported by the filter, and the salted
hasher keys generated at construction are unchanged. -/
theorem claim_C8_clear_resets (s : State) (h h' : Nat) :
    size (clear s) = 0 ∧ numOrphans (clear s) = 0 ∧
    isRecentlyRejectedProof (clear (markProofRejected s h')) h = false ∧
    (clear s).k0 = s.k0 ∧ (clear s).k1 = s.k1 := by
  refine ⟨rfl, rfl, ?_, rfl, rfl⟩
  simp [clear, markProofRejected, isRecentlyRejectedProof]

/-- C9: an identity just inserted into the rejected filter is reported (no
false negative), and after `newBlockFound()` it is no longer reported. -/
theorem claim_C9_rejected_filter (s : State) (hash : Nat) :
    isRecentlyRejectedProof (markProofRejected s hash) hash = true ∧
    isRecentlyRejectedProof (newBlockFound (markProofRejected s hash)) hash = false := by
  constructor
  · simp [isRecentlyRejectedProof, markProofRejected]
  · simp [isRecentlyRejectedProof, newBlockFound]

/-- C7 counterexample: at counter 0, a decrement by 1 (the underflow the
claim speaks about) makes `decrementOrphans` throw `std::runtime_error` — a
catchable exception propagated to the caller — instead of logging a fatal
diagnostic and aborting the process as the claim states (`ModFastFail`, the
abort path, is a different error class reserved for failed index
modifications). -/
theorem claim_C7_counterexample :
    decrementOrphans 0 1 = .error .runtimeError ∧
    DSErr.catchable .runtimeError = true ∧
    DSErr.runtimeError ≠ ModFastFail :=
  ⟨rfl, rfl, by decide⟩

/-- C7 amended: a decrement that would take the orphan counter negative
throws `std::runtime_error`, a catchable exception propagated to the caller
(no log, no abort); only an index modification that fails to commit logs a
fatal diagnostic and aborts the process (`ModFastFail`, which is not
catchable). -/
theorem claim_C7_amended (num n : Nat) (h0 : n ≠ 0) (hlt : num < n) :
    decrementOrphans num n = .error .runtimeError ∧
    DSErr.catchable .runtimeError = true ∧
    ModFastFail = .assertAbort ∧ DSErr.catchable ModFastFail = false := by
  refine ⟨?_, rfl, rfl, rfl⟩
  simp [decrementOrphans, h0, hlt]

/-- Witness for the amended C7 at the concrete underflow (counter 0,
decrement 1). -/
theorem claim_C7_witness :
    (1 : Nat) ≠ 0 ∧ (0 : Nat) < 1 ∧
    decrementOrphans 0 1 = .error .runtimeError ∧
    DSErr.catchable ModFastFail = false :=
  ⟨by decide, by decide, (claim_C7_amended 0 1 (by decide) (by decide)).1,
    (claim_C7_amended 0 1 (by decide) (by decide)).2.2.2⟩

/-- C3: the eviction routine `checkOrphanLimit` (invoked only from
`incrementOrphans`) computes `low = maxOrphans` and
`high = size_t(maxOrphans * 1.25)` — equal to ⌊maxOrphans · 1.25⌋, embedded
as `5 * maxOrphans / 4` (conjunct 1) — and: does nothing while the counter is
at most `high` (conjunct 2); otherwise only erases entries (conjunct 3), each
erased entry being an orphan whose identity differs from the admitted one
(conjunct 4); never erases the admitted identity (conjunct 5); decrements
the counter exactly once per erasure (conjunct 6); stops as soon as the
counter reaches `low` or the sweep is exhausted (conjunct 7: the final
counter is `max low (count − eligible)`); and, the index being
timestamp-ordered, sweeps from the oldest entry forward, so every erased
entry is no newer than any surviving eligible entry (conjunct 8). -/
theorem claim_C3_checkOrphanLimit (s : State) (dd : Nat) :
    (5 * s.m_maxOrphans / 4 = Nat.floor ((s.m_maxOrphans : ℚ) * 1.25)) ∧
    (s.m_numOrphans ≤ 5 * s.m_maxOrphans / 4 → checkOrphanLimit s dd = s) ∧
    (checkOrphanLimit s dd).m_proofs.Sublist s.m_proofs ∧
    (∀ e ∈ s.m_proofs, e ∉ (checkOrphanLimit s dd).m_proofs →
      e.orphan = true ∧ e.proof.id ≠ dd) ∧
    (∀ e ∈ s.m_proofs, e.proof.id = dd → e ∈ (checkOrphanLimit s dd).m_proofs) ∧
    ((checkOrphanLimit s dd).m_numOrphans + s.m_proofs.length
      = s.m_numOrphans + (checkOrphanLimit s dd).m_proofs.length) ∧
    (5 * s.m_maxOrphans / 4 < s.m_numOrphans →
      (checkOrphanLimit s dd).m_numOrphans
        = max s.m_maxOrphans (s.m_numOrphans - s.m_proofs.countP (sweepEligible dd))) ∧
    (s.m_proofs.Pairwise (fun a b => a.timeStamp ≤ b.timeStamp) →
      ∀ x ∈ s.m_proofs, x ∉ (checkOrphanLimit s dd).m_proofs →
      ∀ y ∈ (checkOrphanLimit s dd).m_proofs, sweepEligible dd y = true →
      x.timeStamp ≤ y.timeStamp) := by
  refine ⟨high_watermark_eq_floor s.m_maxOrphans, fun h => checkOrphanLimit_le h, ?_⟩
  by_cases hc : 5 * s.m_maxOrphans / 4 < s.m_numOrphans
  · have hlow : s.m_maxOrphans < s.m_numOrphans := by omega
    rw [checkOrphanLimit_gt hc]
    refine ⟨?_, ?_, ?_, ?_, ?_, ?_⟩
    · exact sweepAux_sublist dd s.m_maxOrphans s.m_proofs s.m_numOrphans
    · intro e he hout
      have hel := sweepAux_erased_eligible he hout
      unfold sweepEligible at hel
      have h1 := (Bool.and_eq_true _ _ ▸ hel).1
      have h2 := (Bool.and_eq_true _ _ ▸ hel).2
      refine ⟨h1, ?_⟩
      intro hcon
      rw [hcon] at h2
      simp at h2
    · intro e he hid
      apply sweepAux_mem_keep he
      unfold sweepEligible
      rw [hid]
      simp
    · have hlen := sweepAux_len dd s.m_maxOrphans s.m_proofs s.m_numOrphans
      show (sweepAux dd s.m_maxOrphans s.m_proofs s.m_numOrphans).2 + s.m_proofs.length
        = s.m_numOrphans + (sweepAux dd s.m_maxOrphans s.m_proofs s.m_numOrphans).1.length
      omega
    · intro _
      exact sweepAux_final dd s.m_maxOrphans s.m_proofs s.m_numOrphans hlow
    · intro hsort x hx hxout y hy hyel
      exact sweepAux_oldest_first hsort x hx hxout y hy hyel
  · rw [checkOrphanLimit_le (by omega)]
    refine ⟨List.Sublist.refl _, ?_, fun e he _ => he, by omega, fun h => absurd h hc, ?_⟩
    · intro e he hout
      exact absurd he hout
    · intro _ x hx hxout
      exact absurd hx hxout

/-- Witness for C3: the no-op branch on a concrete in-band store and the
sweep branch on a concrete over-watermark store (maxOrphans 1, three orphans
with timestamps 1 < 2 < 3, admitting identity 3): the sweep erases the two
oldest orphans and leaves the counter at the low watermark 1. -/
theorem claim_C3_witness :
    checkOrphanLimit wState 2 = wState ∧
    (checkOrphanLimit wSweepState 3).m_numOrphans
      = max wSweepState.m_maxOrphans
          (wSweepState.m_numOrphans - wSweepState.m_proofs.countP (sweepEligible 3)) ∧
    ({ proof := wProof 3, orphan := true, nodeId := 1, timeStamp := 3 } : Entry)
      ∈ (checkOrphanLimit wSweepState 3).m_proofs := by
  refine ⟨(claim_C3_checkOrphanLimit wState 2).2.1 (by decide),
    (claim_C3_checkOrphanLimit wSweepState 3).2.2.2.2.2.2.1 (by decide), ?_⟩
  exact (claim_C3_checkOrphanLimit wSweepState 3).2.2.2.2.1
    { proof := wProof 3, orphan := true, nodeId := 1, timeStamp := 3 }
    (by decide) (by decide)

/-- C4: `add(proof)` — an empty payload is rejected with
`std::invalid_argument` before any state is touched (the throw happens
before the lock is even taken, so the store is unchanged); an existing
orphan identity is demoted (counter decremented, flag cleared, size
unchanged) returning false; an existing non-orphan identity leaves the store
literally unchanged returning false; a fresh identity inserts a new
non-orphan record (default peer and timestamp) returning true. -/
theorem claim_C4_add_behavior (s : State) (p : DoubleSpendProof) (hInv : Inv s) :
    (p.empty = true → add s p = .error .invalidArgument) ∧
    (p.empty = false → ∀ e, findEntry s.m_proofs p.id = some e → e.orphan = true →
      ∃ s', add s p = .ok (s', false) ∧ s'.m_numOrphans + 1 = s.m_numOrphans ∧
        findEntry s'.m_proofs p.id = some { e with orphan := false } ∧
        size s' = size s) ∧
    (p.empty = false → ∀ e, findEntry s.m_proofs p.id = some e → e.orphan = false →
      add s p = .ok (s, false)) ∧
    (p.empty = false → findEntry s.m_proofs p.id = none →
      ∃ s', add s p = .ok (s', true) ∧
        findEntry s'.m_proofs p.id = some (newEntry p) ∧
        s'.m_numOrphans = s.m_numOrphans ∧ size s' = size s + 1) := by
  obtain ⟨hnd, hcnt, hne⟩ := hInv
  refine ⟨fun hp => add_empty hp, ?_, ?_, ?_⟩
  · intro hp e hfe hoe
    have hone : 1 ≤ s.m_numOrphans :=
      hcnt ▸ countOrphans_pos_of_orphan (findEntry_some_mem hfe) hoe
    obtain ⟨hids, hcount, hfind', hlen, _, _⟩ := demote_facts (h := p.id) hnd hfe hoe hne
    refine ⟨_, add_found_orphan hp hfe hoe hone, ?_, hfind', ?_⟩
    · show s.m_numOrphans - 1 + 1 = s.m_numOrphans
      omega
    · show (modifyFirst (fun x => x.proof.id == p.id)
        (fun x => { x with orphan := false }) s.m_proofs).length = s.m_proofs.length
      exact hlen
  · intro hp e hfe hoe
    exact add_found_nonorphan hp hfe hoe
  · intro hp hfe
    refine ⟨_, add_fresh hp hfe, find_insert_fresh hnd hfe, rfl, ?_⟩
    show (insertTS (newEntry p) s.m_proofs).length = s.m_proofs.length + 1
    exact length_insertTS _ _

/-- Witness for C4 on the concrete store `wState` (one orphan record id 1,
one non-orphan record id 2): all four branches of `add` are exercised at
concrete inputs. -/
theorem claim_C4_witness :
    Inv wState ∧ ({ id := 9, prevOut := (9, 0), empty := true } : DoubleSpendProof).empty
      = true ∧
    add wState { id := 9, prevOut := (9, 0), empty := true } = .error .invalidArgument ∧
    (∃ s', add wState (wProof 1) = .ok (s', false) ∧
      s'.m_numOrphans + 1 = wState.m_numOrphans ∧
      findEntry s'.m_proofs (wProof 1).id = some
        { proof := wProof 1, orphan := false, nodeId := 2, timeStamp := 5 } ∧
      size s' = size wState) ∧
    add wState (wProof 2) = .ok (wState, false) ∧
    (∃ s', add wState (wProof 7) = .ok (s', true) ∧
      findEntry s'.m_proofs (wProof 7).id = some (newEntry (wProof 7)) ∧
      s'.m_numOrphans = wState.m_numOrphans ∧ size s' = size wState + 1) := by
  have h1 := (claim_C4_add_behavior wState { id := 9, prevOut := (9, 0), empty := true }
    (by decide)).1 rfl
  have h2 := (claim_C4_add_behavior wState (wProof 1) (by decide)).2.1 rfl
    { proof := wProof 1, orphan := true, nodeId := 2, timeStamp := 5 } (by decide) rfl
  have h3 := (claim_C4_add_behavior wState (wProof 2) (by decide)).2.2.1 rfl
    { proof := wProof 2, orphan := false, nodeId := -1, timeStamp := -1 } (by decide) rfl
  have h4 := (claim_C4_add_behavior wState (wProof 7) (by decide)).2.2.2 rfl (by decide)
  exact ⟨by decide, rfl, h1, h2, h3, h4⟩

/-- C5: `addOrphan(proof, peer)` behaves as `add()` (producing state s₁ and
a non-orphan record e for the identity, whose peer and timestamp are those
stored before the call when the identity already existed) followed by:
adopting the supplied peer only if the stored one was unset (negative) and
the supplied one set; setting the timestamp to the current time only if it
was unset (so a timestamp once set is never updated — the conjunct
`0 ≤ e.timeStamp → ...`); incrementing the counter (the record is never
orphan at that point, `add` having already demoted it, so the code's
"increment only if not already orphan" test always passes) — possibly
triggering an eviction sweep that excludes the admitted identity — and
finally marking the record orphan after the sweep: the admitted record is
present and orphan-flagged in the final state. -/
theorem claim_C5_addOrphan (s : State) (p : DoubleSpendProof) (nid now : Int)
    (hInv : Inv s) (hp : p.empty = false) :
    ∃ s₁ b e, add s p = .ok (s₁, b) ∧
      findEntry s₁.m_proofs p.id = some e ∧ e.orphan = false ∧
      (∀ e₀, findEntry s.m_proofs p.id = some e₀ →
        e.nodeId = e₀.nodeId ∧ e.timeStamp = e₀.timeStamp) ∧
      ∃ s', addOrphan s p nid now = .ok s' ∧
        findEntry s'.m_proofs p.id = some
          { proof := e.proof
            orphan := true
            nodeId := if e.nodeId < 0 ∧ -1 < nid then nid else e.nodeId
            timeStamp := if e.timeStamp < 0 then now else e.timeStamp } ∧
        (0 ≤ e.timeStamp →
          (if e.timeStamp < 0 then now else e.timeStamp) = e.timeStamp) ∧
        (s₁.m_numOrphans + 1 ≤ 5 * s₁.m_maxOrphans / 4 →
          s'.m_numOrphans = s₁.m_numOrphans + 1) := by
  obtain ⟨s₁, b, hadd, hInv₁, _, _, _, _, _, ⟨e, hfe, hoe, hprev, _⟩, _⟩ :=
    add_ok_spec hInv hp
  obtain ⟨s', hrun, _, _, _, _, _, _, hfind', hA, _, _⟩ :=
    addOrphan_ok_characterize nid now hadd hInv₁ hfe hoe
  refine ⟨s₁, b, e, hadd, hfe, hoe, ?_, s', hrun, hfind', ?_, fun h => (hA h).1⟩
  · intro e₀ h₀
    obtain ⟨_, hn, ht, _⟩ := hprev e₀ h₀
    exact ⟨hn, ht⟩
  · intro hts
    rw [if_neg (by omega)]

/-- Witness for C5 on `wState`, re-orphaning the existing non-orphan record
id 2 (unset peer and timestamp) with peer 7 at time 9. -/
theorem claim_C5_witness :
    Inv wState ∧ (wProof 2).empty = false ∧
    (∃ s₁ b e, add wState (wProof 2) = .ok (s₁, b) ∧
      findEntry s₁.m_proofs (wProof 2).id = some e ∧ e.orphan = false ∧
      (∀ e₀, findEntry wState.m_proofs (wProof 2).id = some e₀ →
        e.nodeId = e₀.nodeId ∧ e.timeStamp = e₀.timeStamp) ∧
      ∃ s', addOrphan wState (wProof 2) 7 9 = .ok s' ∧
        findEntry s'.m_proofs (wProof 2).id = some
          { proof := e.proof
            orphan := true
            nodeId := if e.nodeId < 0 ∧ -1 < 7 then 7 else e.nodeId
            timeStamp := if e.timeStamp < 0 then 9 else e.timeStamp } ∧
        (0 ≤ e.timeStamp →
          (if e.timeStamp < 0 then 9 else e.timeStamp) = e.timeStamp) ∧
        (s₁.m_numOrphans + 1 ≤ 5 * s₁.m_maxOrphans / 4 →
          s'.m_numOrphans = s₁.m_numOrphans + 1)) :=
  ⟨by decide, rfl, claim_C5_addOrphan wState (wProof 2) 7 9 (by decide) rfl⟩

/-- C6 counterexample: in a reachable store with maxOrphans = 4 holding five
orphans (the counter sits exactly at the high watermark 5, built by the five
addOrphan calls of `c6Before`), the sequence add(p₆); addOrphan(p₆, 2);
claimOrphan(6) on the fresh proof p₆ ends with numOrphans() = 3, not the 5
observed before the addOrphan call: the addOrphan pushed the counter to
6 > 5, its eviction sweep reaped down to the low watermark 4, and the claim
then decremented to 3.  So the claim's "numOrphans() equal to its value
before the addOrphan call" is false as stated. -/
theorem claim_C6_counterexample : c6Run = .ok (5, 3) ∧ (5 : Nat) ≠ 3 :=
  ⟨rfl, by decide⟩

/-- C6 amended: for a fresh non-empty proof and a set (non-negative) peer
handle, the sequence add(proof); addOrphan(proof, peer); claimOrphan(id)
leaves the record present, non-orphan, with the peer and timestamp adopted
during the addOrphan call, and numOrphans() equal to its value before the
addOrphan call — provided the addOrphan call does not trigger an eviction
sweep (counter + 1 stays within the ⌊1.25·maxOrphans⌋ high watermark); when
a sweep fires, other orphans may be evicted and the final counter is lower
(the counterexample). -/
theorem claim_C6_roundtrip (s : State) (p : DoubleSpendProof) (nid now : Int)
    (hInv : Inv s) (hp : p.empty = false)
    (hfresh : findEntry s.m_proofs p.id = none) (hnid : 0 ≤ nid)
    (hnosweep : s.m_numOrphans + 1 ≤ 5 * s.m_maxOrphans / 4) :
    ∃ s₁ b s₂ s₃, add s p = .ok (s₁, b) ∧ s₁.m_numOrphans = s.m_numOrphans ∧
      addOrphan s₁ p nid now = .ok s₂ ∧
      claimOrphan s₂ p.id = .ok s₃ ∧
      findEntry s₃.m_proofs p.id = some
        { proof := p, orphan := false, nodeId := nid, timeStamp := now } ∧
      numOrphans s₃ = numOrphans s₁ := by
  obtain ⟨hnd, hcnt, hne⟩ := hInv
  have hadd : add s p = .ok ({ s with m_proofs := insertTS (newEntry p) s.m_proofs }, true) :=
    add_fresh hp hfresh
  have hInv₁ : Inv { s with m_proofs := insertTS (newEntry p) s.m_proofs } := by
    obtain ⟨s₁', b', hadd', hInv₁', _⟩ := add_ok_spec ⟨hnd, hcnt, hne⟩ hp
    rw [hadd] at hadd'
    simp only [Except.ok.injEq, Prod.mk.injEq] at hadd'
    exact hadd'.1 ▸ hInv₁'
  have hf₁ : findEntry ({ s with m_proofs := insertTS (newEntry p) s.m_proofs }
      : State).m_proofs p.id = some (newEntry p) := find_insert_fresh hnd hfresh
  have hadd₂ : add { s with m_proofs := insertTS (newEntry p) s.m_proofs } p
      = .ok ({ s with m_proofs := insertTS (newEntry p) s.m_proofs }, false) :=
    add_found_nonorphan hp hf₁ rfl
  obtain ⟨s₂, hrun₂, hInv₂, _, _, _, _, _, hfind₂, hA₂, _, _⟩ :=
    addOrphan_ok_characterize nid now hadd₂ hInv₁ hf₁ rfl
  have hnum₂ : s₂.m_numOrphans = s.m_numOrphans + 1 := (hA₂ (by simpa using hnosweep)).1
  have he₂ : findEntry s₂.m_proofs p.id = some
      { proof := p, orphan := true, nodeId := nid, timeStamp := now } := by
    rw [hfind₂]
    have hnid' : (-1 : Int) < nid := by omega
    have hneg : (-1 : Int) < 0 := by norm_num
    simp [newEntry, hnid', hneg]
  obtain ⟨s₃, hrun₃, hInv₃, hnum₃, hfind₃, _⟩ := claimOrphan_spec hInv₂ he₂ rfl
  refine ⟨_, _, s₂, s₃, hadd, rfl, hrun₂, hrun₃, ?_, ?_⟩
  · rw [hfind₃]
  · show s₃.m_numOrphans = s.m_numOrphans
    omega

/-- Witness for the amended C6: a fresh store (maxOrphans 5), fresh proof
id 9, peer 4, time 11. -/
theorem claim_C6_witness :
    Inv (mkStorage 0 0 5 0) ∧ (wProof 9).empty = false ∧
    findEntry (mkStorage 0 0 5 0).m_proofs (wProof 9).id = none ∧
    (0 : Int) ≤ 4 ∧ (mkStorage 0 0 5 0).m_numOrphans + 1 ≤ 5 * (mkStorage 0 0 5 0).m_maxOrphans / 4 ∧
    (∃ s₁ b s₂ s₃, add (mkStorage 0 0 5 0) (wProof 9) = .ok (s₁, b) ∧
      s₁.m_numOrphans = (mkStorage 0 0 5 0).m_numOrphans ∧
      addOrphan s₁ (wProof 9) 4 11 = .ok s₂ ∧
      claimOrphan s₂ (wProof 9).id = .ok s₃ ∧
      findEntry s₃.m_proofs (wProof 9).id = some
        { proof := wProof 9, orphan := false, nodeId := 4, timeStamp := 11 } ∧
      numOrphans s₃ = numOrphans s₁) :=
  ⟨by decide, rfl, by decide, by decide, by decide,
    claim_C6_roundtrip (mkStorage 0 0 5 0) (wProof 9) 4 11 (by decide) rfl
      (by decide) (by decide) (by decide)⟩

namespace DoubleSpendProofStorage

theorem c2_step {M : Nat} {used : List Nat} {s : State} {p : DoubleSpendProof}
    (nid now : Int) (hM : 1 ≤ M) (hC : C2Inv M used s) (hfresh : p.id ∉ used)
    (hp : p.empty = false) :
    ∃ s', addOrphan s p nid now = .ok s' ∧ C2Inv M (p.id :: used) s' ∧
      numOrphans s'
        = (if 5 * M / 4 < numOrphans s + 1 then M else numOrphans s + 1) ∧
      ∃ e, findEntry s'.m_proofs p.id = some e ∧ e.orphan = true := by
  obtain ⟨hInv, hmax, hused, hwm⟩ := hC
  have hff : findEntry s.m_proofs p.id = none := by
    rw [findEntry_eq_none_iff]
    intro x hx hcon
    exact hfresh (hcon ▸ hused x hx)
  obtain ⟨s₁, b, hadd, hInv₁, hmax₁, _, _, _, _, ⟨e, hfe, hoe, _, hfr⟩, hsub₁⟩ :=
    add_ok_spec hInv hp
  obtain ⟨he1, hnum₁, _⟩ := hfr hff
  obtain ⟨s', hrun, hInv', hmax', _, _, _, _, hfind', hA, hB, hsub'⟩ :=
    addOrphan_ok_characterize nid now hadd hInv₁ hfe hoe
  have hmaxM : s₁.m_maxOrphans = M := by rw [hmax₁, hmax]
  refine ⟨s', hrun, ⟨hInv', by rw [hmax', hmaxM], ?_, ?_⟩, ?_, ⟨_, hfind', rfl⟩⟩
  · intro x hx
    rcases hsub' x hx with h₁ | h₂
    · exact h₁ ▸ List.mem_cons_self _ _
    · obtain ⟨y, hy, hyid⟩ := List.mem_map.mp h₂
      rcases hsub₁ y hy with h₃ | h₄
      · exact List.mem_cons.mpr (Or.inl (hyid ▸ h₃))
      · obtain ⟨z, hz, hzid⟩ := List.mem_map.mp h₄
        exact List.mem_cons.mpr (Or.inr (hyid ▸ hzid ▸ hused z hz))
  · by_cases hcase : 5 * s₁.m_maxOrphans / 4 < s₁.m_numOrphans + 1
    · have hthis := hB hcase
      rw [hthis, hmaxM, Nat.max_eq_left hM]
      omega
    · have hthis := (hA (by omega)).1
      rw [hthis, hnum₁]
      rw [hmaxM] at hcase
      rw [hnum₁] at hcase
      omega
  · by_cases hcase : 5 * M / 4 < s.m_numOrphans + 1
    · have hcase' : 5 * s₁.m_maxOrphans / 4 < s₁.m_numOrphans + 1 := by
        rw [hmaxM, hnum₁]
        exact hcase
      have := hB hcase'
      show s'.m_numOrphans = _
      rw [this, hmaxM]
      have hmax1 : max M 1 = M := Nat.max_eq_left hM
      simp only [numOrphans, if_pos hcase]
      exact hmax1
    · have hcase' : ¬ 5 * s₁.m_maxOrphans / 4 < s₁.m_numOrphans + 1 := by
        rw [hmaxM, hnum₁]
        exact hcase
      have := (hA (by omega)).1
      show s'.m_numOrphans = _
      simp only [numOrphans, if_neg hcase]
      rw [this, hnum₁]

theorem addOrphanSeq_append (s : State) (a c : List (DoubleSpendProof × Int × Int)) :
    addOrphanSeq s (a ++ c)
      = (addOrphanSeq s a).bind fun s' => addOrphanSeq s' c := by
  induction a generalizing s with
  | nil => rfl
  | cons x xs ih =>
    simp only [List.cons_append, addOrphanSeq]
    cases haddo : addOrphan s x.1 x.2.1 x.2.2 with
    | error err => simp [Except.bind, haddo, bind]
    | ok s2 => simp [Except.bind, haddo, bind, ih]

theorem c2_aux {M : Nat} (hM : 1 ≤ M) :
    ∀ (inputs : List (DoubleSpendProof × Int × Int)) (used : List Nat) (s : State),
      C2Inv M used s →
      (inputs.map fun x => x.1.id).Nodup →
      (∀ x ∈ inputs, x.1.id ∉ used) →
      (∀ x ∈ inputs, x.1.empty = false) →
      ∃ s', addOrphanSeq s inputs = .ok s' ∧
        C2Inv M ((inputs.map fun x => x.1.id).reverse ++ used) s' := by
  intro inputs
  induction inputs with
  | nil =>
    intro used s hC _ _ _
    exact ⟨s, rfl, by simpa using hC⟩
  | cons x xs ih =>
    intro used s hC hnd hfr hne
    obtain ⟨s', hrun, hC', _, _⟩ :=
      c2_step x.2.1 x.2.2 hM hC (hfr x (by simp)) (hne x (by simp))
    obtain ⟨s'', hrun'', hC''⟩ := ih (x.1.id :: used) s' hC'
      (List.nodup_cons.mp hnd).2
      (fun y hy hcon => by
        rcases List.mem_cons.mp hcon with h₁ | h₂
        · refine (List.nodup_cons.mp hnd).1 ?_
          have hmem : y.1.id ∈ xs.map fun z => z.1.id :=
            List.mem_map_of_mem (fun z => z.1.id) hy
          rwa [h₁] at hmem
        · exact hfr y (List.mem_cons_of_mem _ hy) h₂)
      (fun y hy => hne y (List.mem_cons_of_mem _ hy))
    refine ⟨s'', ?_, ?_⟩
    · simp only [addOrphanSeq]
      rw [hrun]
      simpa [Except.bind, bind] using hrun''
    · have hsh : ((x :: xs).map fun y => y.1.id).reverse ++ used
          = (xs.map fun y => y.1.id).reverse ++ (x.1.id :: used) := by
        simp
      rw [hsh]
      exact hC''

end DoubleSpendProofStorage

/-- C2 counterexample: the claim quantifies over every configured
maxOrphans, but with maxOrphans = 0 a single addOrphan of a fresh identity
leaves numOrphans() at 1, exceeding floor(0 · 1.25) = 0 — and the eviction
sweep that ran during that very call (the counter exceeded the high
watermark 0) could not bring the count back to ≤ 0, because the admitted
identity itself is protected from eviction. -/
theorem claim_C2_counterexample :
    (addOrphanSeq (mkStorage 0 0 0 0) [(wProof 1, 1, 1)]).toOption.map numOrphans
      = some 1 ∧ 5 * 0 / 4 = 0 ∧ ¬ (1 : Nat) ≤ 0 :=
  ⟨rfl, rfl, by decide⟩

/-- C2 amended: for every configured maxOrphans = M ≥ 1 (the claim fails at
M = 0, where the count sticks at 1 > 0), starting from a fresh store, under
any sequence of addOrphan calls with distinct non-empty identities and no
claims or removals: the final numOrphans() never exceeds ⌊M·1.25⌋ = 5·M/4
(and since every prefix of such a sequence is again such a sequence, the
bound holds after each call); for the last call, the counter becomes exactly
M when the increment crossed the high watermark — i.e. the sweep that ran
brought it down to M ≤ ⌊M·1.25⌋ — and the counter increments by one
otherwise; and the orphan admitted by that call is present (and
orphan-flagged) afterwards, never having been evicted by its own call. -/
theorem claim_C2_eviction_bound (M k0 k1 : Nat) (secs : Int) (hM : 1 ≤ M)
    (inputs : List (DoubleSpendProof × Int × Int))
    (hids : (inputs.map fun x => x.1.id).Nodup)
    (hne : ∀ x ∈ inputs, x.1.empty = false) :
    ∃ s', addOrphanSeq (mkStorage k0 k1 M secs) inputs = .ok s' ∧
      numOrphans s' ≤ 5 * M / 4 ∧
      (∀ pre x, inputs = pre ++ [x] →
        ∃ sp, addOrphanSeq (mkStorage k0 k1 M secs) pre = .ok sp ∧
          numOrphans s'
            = (if 5 * M / 4 < numOrphans sp + 1 then M else numOrphans sp + 1) ∧
          ∃ e, findEntry s'.m_proofs x.1.id = some e ∧ e.orphan = true) := by
  have hC0 : C2Inv M [] (mkStorage k0 k1 M secs) :=
    ⟨mkStorage_inv k0 k1 M secs, rfl, by simp [mkStorage], by simp [mkStorage]⟩
  obtain ⟨s', hrun, hC'⟩ := c2_aux hM inputs [] _ hC0 hids (by simp) hne
  refine ⟨s', hrun, hC'.2.2.2, ?_⟩
  intro pre x hsplit
  subst hsplit
  have hmap : ((pre ++ [x]).map fun y => y.1.id)
      = (pre.map fun y => y.1.id) ++ [x.1.id] := by simp
  rw [hmap] at hids
  have hndpre : (pre.map fun y => y.1.id).Nodup := (List.nodup_append.mp hids).1
  have hdisj := (List.nodup_append.mp hids).2.2
  have hxfresh : x.1.id ∉ (pre.map fun y => y.1.id) := by
    intro hcon
    exact hdisj hcon (by simp)
  obtain ⟨sp, hrunp, hCp⟩ := c2_aux hM pre [] _ hC0 hndpre (by simp)
    (fun y hy => hne y (by simp [hy]))
  have hxfresh' : x.1.id ∉ (pre.map fun y => y.1.id).reverse ++ [] := by
    simpa using hxfresh
  obtain ⟨s'', hrunx, _, hformula, hex⟩ :=
    c2_step x.2.1 x.2.2 hM hCp hxfresh' (hne x (by simp))
  have hcomp : addOrphanSeq (mkStorage k0 k1 M secs) (pre ++ [x]) = .ok s'' := by
    rw [addOrphanSeq_append, hrunp]
    simp [Except.bind, bind, addOrphanSeq, hrunx]
  rw [hrun] at hcomp
  simp only [Except.ok.injEq] at hcomp
  subst hcomp
  exact ⟨sp, hrunp, hformula, hex⟩

/-- Witness for the amended C2: M = 2 with three distinct orphan additions —
the third addOrphan crosses the high watermark ⌊2·1.25⌋ = 2 and the sweep
brings the counter back to M = 2. -/
theorem claim_C2_witness :
    (1 : Nat) ≤ 2 ∧
    (([(wProof 1, 1, 1), (wProof 2, 1, 2), (wProof 3, 1, 3)].map
      (fun x => x.1.id)).Nodup) ∧
    (∃ s', addOrphanSeq (mkStorage 0 0 2 0)
        [(wProof 1, 1, 1), (wProof 2, 1, 2), (wProof 3, 1, 3)] = .ok s' ∧
      numOrphans s' ≤ 5 * 2 / 4 ∧
      (∀ pre x, [(wProof 1, 1, 1), (wProof 2, 1, 2), (wProof 3, 1, 3)] = pre ++ [x] →
        ∃ sp, addOrphanSeq (mkStorage 0 0 2 0) pre = .ok sp ∧
          numOrphans s'
            = (if 5 * 2 / 4 < numOrphans sp + 1 then 2 else numOrphans sp + 1) ∧
          ∃ e, findEntry s'.m_proofs x.1.id = some e ∧ e.orphan = true)) :=
  ⟨by decide, by decide,
    claim_C2_eviction_bound 2 0 0 0 (by decide)
      [(wProof 1, 1, 1), (wProof 2, 1, 2), (wProof 3, 1, 3)] (by decide)
      (by decide)⟩
